import Mathlib

set_option maxRecDepth 40000

/-!
Verification of the zipslicer central-directory reader/writer
(`lib/zipslicer/directory.go`) and of the pkcs9 timestamp layer.

Byte strings are modelled as `List Nat` (each element one byte).  Go's
little-endian reads and writes become `rdLE`/`le`.  Go's unsigned casts
(`uint16(x)`, `uint32(x)`) become explicit `% 2 ^ 16` / `% 2 ^ 32`.
Go `int64` quantities that are non-negative in every modelled flow
(sizes, offsets) are carried as `Nat`; the places where Go would produce
a negative value or a slice/index panic are modelled by explicit error
branches, noted at each definition.
-/

namespace Zipslicer

/-- Little-endian read of `k` bytes from the front of a byte list; absent
bytes read as zero (Go's `binary.Read` zero-fills on short input; the
callers below guard lengths wherever Go would instead panic). -/
def rdLE : Nat → List Nat → Nat
  | 0, _ => 0
  | _ + 1, [] => 0
  | k + 1, b :: bs => b + 256 * rdLE k bs

/-- Read `k` little-endian bytes at offset `off`. -/
def rdAt (bs : List Nat) (off k : Nat) : Nat := rdLE k (bs.drop off)

/-- The sublist `bs[off : off+k]` (Go slicing, total). -/
def sliceN (bs : List Nat) (off k : Nat) : List Nat := (bs.drop off).take k

/-- Little-endian serialization of the low `k` bytes of `n`. -/
def le : Nat → Nat → List Nat
  | 0, _ => []
  | k + 1, n => n % 256 :: le k (n / 256)

/-- Central-directory record signature (structs.go constant, standard ZIP). -/
def directoryHeaderSignature : Nat := 0x02014b50

/-- End-of-central-directory signature. -/
def directoryEndSignature : Nat := 0x06054b50

/-- ZIP64 end-of-central-directory signature. -/
def directory64EndSignature : Nat := 0x06064b50

/-- ZIP64 end-of-central-directory locator signature. -/
def directory64LocSignature : Nat := 0x07064b50

/-- Tag of the ZIP64 extra field. -/
def zip64ExtraID : Nat := 1

def uint16Max : Nat := 0xffff

def uint32Max : Nat := 0xffffffff

def directoryHeaderLen : Nat := 46

def directoryEndLen : Nat := 22

def directory64LocLen : Nat := 20

def directory64EndLen : Nat := 56

def zip20 : Nat := 20

def zip45 : Nat := 45

/-- In-memory file entry (struct `File`); `r`/`rs` model the `io.ReaderAt`
backing the entry and its size, `raw` the cached central-directory bytes
(`nil` in Go becomes `none`). -/
structure File where
  CreatorVersion : Nat
  ReaderVersion : Nat
  Flags : Nat
  Method : Nat
  ModifiedTime : Nat
  ModifiedDate : Nat
  CRC32 : Nat
  CompressedSize : Nat
  UncompressedSize : Nat
  InternalAttrs : Nat
  ExternalAttrs : Nat
  Offset : Nat
  Name : List Nat
  Extra : List Nat
  Comment : List Nat
  raw : Option (List Nat)
  r : List Nat
  rs : Nat
  deriving DecidableEq

/-- ZIP64 end-of-central-directory record (struct `zip64End`, 56 bytes). -/
structure Zip64End where
  Signature : Nat
  RecordSize : Nat
  CreatorVersion : Nat
  ReaderVersion : Nat
  DiskNumber : Nat
  DiskCD : Nat
  DiskCDCount : Nat
  TotalCDCount : Nat
  CDSize : Nat
  CDOffset : Nat
  deriving DecidableEq

/-- ZIP64 end-of-central-directory locator (struct `zip64Loc`, 20 bytes). -/
structure Zip64Loc where
  Signature : Nat
  DiskNumber : Nat
  Offset : Nat
  DiskCount : Nat
  deriving DecidableEq

/-- End-of-central-directory record (struct `zipEndRecord`, 22 bytes). -/
structure ZipEndRecord where
  Signature : Nat
  DiskNumber : Nat
  DiskCD : Nat
  DiskCDCount : Nat
  TotalCDCount : Nat
  CDSize : Nat
  CDOffset : Nat
  CommentLength : Nat
  deriving DecidableEq

def zero64 : Zip64End := ⟨0, 0, 0, 0, 0, 0, 0, 0, 0, 0⟩

def zeroLoc : Zip64Loc := ⟨0, 0, 0, 0⟩

def zeroEnd : ZipEndRecord := ⟨0, 0, 0, 0, 0, 0, 0, 0⟩

/-- The `Directory` struct; the Go field `end` is renamed `endRec`
(`end` is a Lean keyword). -/
structure Directory where
  File : List File
  Size : Nat
  DirLoc : Nat
  r : List Nat
  end64 : Zip64End
  loc64 : Zip64Loc
  endRec : ZipEndRecord
  deriving DecidableEq

/-- Errors and panics of the modelled operations.  `oob` stands for a Go
slice/index panic, `readFail` for an `io` error, the rest for the explicit
`errors.New` returns of directory.go. -/
inductive ZErr where
  | oob
  | missingZip64
  | expectedEnd
  | dirNotFound
  | needLoc64
  | readFail
  | tooLarge32
  deriving DecidableEq

/-- Field-wise parse of a `zip64End` (layout of the 56-byte record). -/
def parse64End (bs : List Nat) : Zip64End :=
  ⟨rdAt bs 0 4, rdAt bs 4 8, rdAt bs 12 2, rdAt bs 14 2, rdAt bs 16 4,
   rdAt bs 20 4, rdAt bs 24 8, rdAt bs 32 8, rdAt bs 40 8, rdAt bs 48 8⟩

/-- Field-wise parse of a `zip64Loc` (20 bytes). -/
def parseLoc64 (bs : List Nat) : Zip64Loc :=
  ⟨rdAt bs 0 4, rdAt bs 4 4, rdAt bs 8 8, rdAt bs 16 4⟩

/-- Field-wise parse of a `zipEndRecord` (22 bytes). -/
def parseEndRecord (bs : List Nat) : ZipEndRecord :=
  ⟨rdAt bs 0 4, rdAt bs 4 2, rdAt bs 6 2, rdAt bs 8 2, rdAt bs 10 2,
   rdAt bs 12 4, rdAt bs 16 4, rdAt bs 20 2⟩

/-- Serialization of a `zip64End` (what `binary.Write` emits). -/
def ser64End (e : Zip64End) : List Nat :=
  le 4 e.Signature ++ le 8 e.RecordSize ++ le 2 e.CreatorVersion ++
  le 2 e.ReaderVersion ++ le 4 e.DiskNumber ++ le 4 e.DiskCD ++
  le 8 e.DiskCDCount ++ le 8 e.TotalCDCount ++ le 8 e.CDSize ++ le 8 e.CDOffset

/-- Serialization of a `zip64Loc`. -/
def serLoc64 (l : Zip64Loc) : List Nat :=
  le 4 l.Signature ++ le 4 l.DiskNumber ++ le 8 l.Offset ++ le 4 l.DiskCount

/-- Serialization of a `zipEndRecord`. -/
def serEndRecord (e : ZipEndRecord) : List Nat :=
  le 4 e.Signature ++ le 2 e.DiskNumber ++ le 2 e.DiskCD ++
  le 2 e.DiskCDCount ++ le 2 e.TotalCDCount ++ le 4 e.CDSize ++
  le 4 e.CDOffset ++ le 2 e.CommentLength

/-- State threaded through the ZIP64 extra-field walk of
ReadWithDirectory (directory.go lines 108-135). -/
structure Zip64State where
  UncompressedSize : Nat
  CompressedSize : Nat
  Offset : Nat
  needU : Bool
  needC : Bool
  needO : Bool
  deriving DecidableEq

/-- One `0x0001` extra payload applied to the walk state: the 64-bit
uncompressed size, compressed size and offset are read at the fixed byte
offsets 0, 8 and 16 of the payload, each only when the corresponding
32-bit field was the sentinel and the payload is long enough. -/
def zip64Apply (e : List Nat) (sz : Nat) (s : Zip64State) : Zip64State :=
  let s1 := if s.needU ∧ 8 ≤ sz then
    { s with UncompressedSize := rdLE 8 e, needU := false } else s
  let s2 := if s1.needC ∧ 16 ≤ sz then
    { s1 with CompressedSize := rdAt e 8 8, needC := false } else s1
  if s2.needO ∧ 24 ≤ sz then
    { s2 with Offset := rdAt e 16 8, needO := false } else s2

/-- Fuelled form of the extra-field walk; the fuel only forces structural
recursion and `zip64Walk` below supplies enough of it. -/
def zip64WalkF : Nat → List Nat → Zip64State → Zip64State
  | 0, _, s => s
  | fuel + 1, extra, s =>
    if extra.length < 4 then s
    else
      let sz := rdAt extra 2 2
      if extra.length - 4 < sz then s
      else if rdLE 2 extra = zip64ExtraID then zip64Apply (sliceN extra 4 sz) sz s
      else zip64WalkF fuel (extra.drop (4 + sz)) s

/-- The extra-field walk of ReadWithDirectory (lines 112-135): scan tagged
extra blocks, stop at a truncated block, and on the first `0x0001` block
apply `zip64Apply`, then stop. -/
def zip64Walk (extra : List Nat) (s : Zip64State) : Zip64State :=
  zip64WalkF extra.length extra s

/-- Post-walk check of ReadWithDirectory (lines 136-138): a still-missing
64-bit compressed size or offset is a malformed archive; a still-missing
uncompressed size is NOT checked by the code. -/
def zip64Check (extra : List Nat) (s : Zip64State) : Except ZErr Zip64State :=
  let t := zip64Walk extra s
  if t.needC ∨ t.needO then .error .missingZip64 else .ok t

/-- The entry built by one turn of the ReadWithDirectory loop from the
record at the front of `cd` (with the ZIP64 walk already applied in
`st`), and the record's total length `L`. -/
def mkEntry (r : List Nat) (rs : Nat) (cd : List Nat) (st : Zip64State)
    (L : Nat) : File :=
  { CreatorVersion := rdAt cd 4 2, ReaderVersion := rdAt cd 6 2,
    Flags := rdAt cd 8 2, Method := rdAt cd 10 2,
    ModifiedTime := rdAt cd 12 2, ModifiedDate := rdAt cd 14 2,
    CRC32 := rdAt cd 16 4, CompressedSize := st.CompressedSize,
    UncompressedSize := st.UncompressedSize,
    InternalAttrs := rdAt cd 36 2, ExternalAttrs := rdAt cd 38 4,
    Offset := st.Offset, Name := sliceN cd directoryHeaderLen (rdAt cd 28 2),
    Extra := sliceN cd (directoryHeaderLen + rdAt cd 28 2) (rdAt cd 30 2),
    Comment := sliceN cd (directoryHeaderLen + rdAt cd 28 2 + rdAt cd 30 2)
      (rdAt cd 32 2),
    raw := some (cd.take L), r := r, rs := rs }

/-- The record length of the record at the front of `cd`. -/
def recLen (cd : List Nat) : Nat :=
  directoryHeaderLen + rdAt cd 28 2 + rdAt cd 30 2 + rdAt cd 32 2

/-- The walk state seeded from the 32-bit size/offset fields of the
record at the front of `cd` (sentinel fields are the needed ones). -/
def seedState (cd : List Nat) : Zip64State :=
  ⟨rdAt cd 24 4, rdAt cd 20 4, rdAt cd 42 4, rdAt cd 24 4 = uint32Max,
   rdAt cd 20 4 = uint32Max, rdAt cd 42 4 = uint32Max⟩

/-- Fuelled form of the ReadWithDirectory entry loop; `parseEntries`
below supplies adequate fuel. -/
def parseEntriesF (r : List Nat) (rs : Nat) :
    Nat → List Nat → Except ZErr (List File × List Nat)
  | 0, _ => .error .oob
  | fuel + 1, cd =>
    if cd.length < 4 then .error .oob
    else if ¬ rdLE 4 cd = directoryHeaderSignature then .ok ([], cd)
    else if cd.length < recLen cd then .error .oob
    else
      let extra := sliceN cd (directoryHeaderLen + rdAt cd 28 2) (rdAt cd 30 2)
      match zip64Check extra (seedState cd) with
      | .error e => .error e
      | .ok st =>
        match parseEntriesF r rs fuel (cd.drop (recLen cd)) with
        | .ok (fs, rest) => .ok (mkEntry r rs cd st (recLen cd) :: fs, rest)
        | .error e => .error e

/-- The central-directory entry loop of ReadWithDirectory (lines 79-140).
Returns the parsed entries and the unconsumed remainder of `cd`.
`r`/`rs` are stamped into each entry as in the source.  `.error .oob`
marks the inputs on which the Go code panics (reading the 4-byte
signature of a too-short list, or slicing past the end of `cd`). -/
def parseEntries (r : List Nat) (rs : Nat) (cd : List Nat) :
    Except ZErr (List File × List Nat) :=
  parseEntriesF r rs cd.length cd

/-- ReadWithDirectory (lines 76-158): parse the entries, then the optional
ZIP64 end records and the end record.  `binary.Read` on a short buffer
leaves the target zero-valued, which the `if length` guards reproduce. -/
def ReadWithDirectory (r : List Nat) (size : Nat) (cd : List Nat) :
    Except ZErr Directory :=
  match parseEntries r size cd with
  | .error e => .error e
  | .ok (files, rest) =>
    if h4 : rest.length < 4 then .error .oob
    else
      let sig := rdLE 4 rest
      if sig = directory64EndSignature then
        let e64 := if 56 ≤ rest.length then parse64End rest else zero64
        let rest1 := if 56 ≤ rest.length then rest.drop 56 else []
        let l64 := if 20 ≤ rest1.length then parseLoc64 rest1 else zeroLoc
        let rest2 := if 20 ≤ rest1.length then rest1.drop 20 else []
        let er := if 22 ≤ rest2.length then parseEndRecord rest2 else zeroEnd
        .ok ⟨files, size, size - cd.length, r, e64, l64, er⟩
      else if sig = directoryEndSignature then
        let er := if 22 ≤ rest.length then parseEndRecord rest else zeroEnd
        .ok ⟨files, size, size - cd.length, r, zero64, zeroLoc, er⟩
      else .error .expectedEnd

/-- FindDirectory (lines 42-73): probe the last 42 bytes for the end
record, follow the ZIP64 locator when a count/size/offset field holds its
sentinel.  A too-small archive makes the initial `ReadAt` fail
(negative position), modelled by the first guard. -/
def FindDirectory (archive : List Nat) : Except ZErr Nat :=
  let size := archive.length
  if size < directoryEndLen + directory64LocLen then .error .readFail
  else
    let endb := archive.drop (size - (directoryEndLen + directory64LocLen))
    let l64 := parseLoc64 (endb.take directory64LocLen)
    let er := parseEndRecord (endb.drop directory64LocLen)
    if ¬ er.Signature = directoryEndSignature then .error .dirNotFound
    else if er.TotalCDCount = uint16Max ∨ er.CDSize = uint32Max ∨
        er.CDOffset = uint32Max then
      if ¬ l64.Signature = directory64LocSignature then .error .needLoc64
      else if size < l64.Offset + directory64EndLen then .error .readFail
      else
        let e64 := parse64End (sliceN archive l64.Offset directory64EndLen)
        if ¬ e64.Signature = directory64EndSignature then .error .dirNotFound
        else .ok e64.CDOffset
    else .ok er.CDOffset

/-- Read (lines 161-171), at `size` equal to the length of the backing
bytes.  A central-directory offset at or above `2 ^ 63` would be a
negative `int64` in Go and fail the `ReadAt`; an offset beyond the archive
makes the Go `make([]byte, size-loc)` panic. -/
def Read (archive : List Nat) : Except ZErr Directory :=
  match FindDirectory archive with
  | .error e => .error e
  | .ok loc =>
    if 2 ^ 63 ≤ loc then .error .readFail
    else if archive.length < loc then .error .oob
    else ReadWithDirectory archive archive.length (archive.drop loc)

/-- Modelled from the spec: `File.GetDirectoryHeader` (file.go, not under
src).  Per the spec's data model, each entry keeps its raw CD bytes and
AddFile invalidates them when the offset moves "so that it will be
re-serialized"; hence the cached raw bytes are returned when present and
otherwise the record is serialized, with the ZIP64 extra present exactly
for the sizes/offset at or above the 32-bit maximum (spec invariant),
its fields in the order uncompressed, compressed, offset. -/
def GetDirectoryHeader (f : File) : List Nat :=
  match f.raw with
  | some b => b
  | none =>
    let needU := uint32Max ≤ f.UncompressedSize
    let needC := uint32Max ≤ f.CompressedSize
    let needO := uint32Max ≤ f.Offset
    let z : List Nat :=
      (if needU then le 8 f.UncompressedSize else []) ++
      (if needC then le 8 f.CompressedSize else []) ++
      (if needO then le 8 f.Offset else [])
    let extra :=
      if z = [] then f.Extra
      else f.Extra ++ le 2 zip64ExtraID ++ le 2 z.length ++ z
    le 4 directoryHeaderSignature ++ le 2 f.CreatorVersion ++
    le 2 f.ReaderVersion ++ le 2 f.Flags ++ le 2 f.Method ++
    le 2 f.ModifiedTime ++ le 2 f.ModifiedDate ++ le 4 f.CRC32 ++
    le 4 (if needC then uint32Max else f.CompressedSize) ++
    le 4 (if needU then uint32Max else f.UncompressedSize) ++
    le 2 f.Name.length ++ le 2 extra.length ++ le 2 f.Comment.length ++
    le 2 0 ++ le 2 f.InternalAttrs ++ le 4 f.ExternalAttrs ++
    le 4 (if needO then uint32Max else f.Offset) ++
    f.Name ++ extra ++ f.Comment

/-- Modelled from the spec: `File.GetTotalSize` (file.go, not under src).
Per the spec, an entry's span is local header + data + data descriptor;
the local header's name/extra lengths are read from the backing bytes at
the entry's offset (30-byte fixed part), and a 16-byte data descriptor is
counted when flag bit 3 is set.  A read past the backing bytes fails. -/
def GetTotalSize (f : File) : Except ZErr Nat :=
  if f.r.length < f.Offset + 30 then .error .readFail
  else
    let nameLen := rdAt f.r (f.Offset + 26) 2
    let extraLen := rdAt f.r (f.Offset + 28) 2
    let dd := if f.Flags.testBit 3 then 16 else 0
    .ok (30 + nameLen + extraLen + f.CompressedSize + dd)

/-- Total serialized size of the directory's entry headers (the `size`
accumulator of WriteDirectory). -/
def wdSize (d : Directory) : Nat :=
  ((d.File.map GetDirectoryHeader).map List.length).sum

/-- The version-needed fold of WriteDirectory before the ZIP64 choice:
maximum of 2.0 and every entry's reader version. -/
def wdMinV0 (d : Directory) : Nat :=
  d.File.foldl (fun m f => if m < f.ReaderVersion then f.ReaderVersion else m)
    zip20

/-- WriteDirectory (lines 235-310): re-emit every entry's header to the
first writer, then the end-of-directory records to the second, choosing
the ZIP64 form when the final version-needed equals 4.5.  Returns the two
writers' contents (header serialization never fails in the model, so the
Go error path is absent). -/
def WriteDirectory (d : Directory) (forceZip64 : Bool) : List Nat × List Nat :=
  let cdoff := d.DirLoc
  let blobs := d.File.map GetDirectoryHeader
  let count := d.File.length
  let size := wdSize d
  let minVersion :=
    if uint16Max ≤ count ∨ uint32Max ≤ size ∨ uint32Max ≤ cdoff ∨
        forceZip64 = true then zip45
    else wdMinV0 d
  let weod :=
    if minVersion = zip45 then
      ser64End ⟨directory64EndSignature, directory64EndLen - 12, zip45,
        minVersion, 0, 0, count, count, size, cdoff⟩ ++
      serLoc64 ⟨directory64LocSignature, 0, cdoff + size, 1⟩ ++
      serEndRecord ⟨directoryEndSignature, 0, 0, uint16Max, uint16Max,
        uint32Max, uint32Max, 0⟩
    else
      serEndRecord ⟨directoryEndSignature, 0, 0, count % 2 ^ 16,
        count % 2 ^ 16, size % 2 ^ 32, cdoff % 2 ^ 32, 0⟩
  (blobs.flatten, weod)

/-- Body phase of Truncate (lines 184-195): for each of the first `n`
entries copy its span out of `d.r`.  An index past the entry list is the
Go panic; an offset at or above `2 ^ 63` is a negative `int64` section
offset, failing the copy.  `io.Copy` of a section reaching past the end
of `d.r` just stops at the available bytes (SectionReader yields EOF),
so the slice is total. -/
def truncBody (d : Directory) (n : Nat) : Except ZErr (List Nat) :=
  (List.range n).foldlM
    (fun acc i =>
      if h : i < d.File.length then do
        let f := d.File.get ⟨i, h⟩
        let t ← GetTotalSize f
        if 2 ^ 63 ≤ f.Offset then .error .readFail
        else pure (acc ++ sliceN d.r f.Offset t)
      else .error .oob)
    []

/-- Truncate (lines 183-228).  `includeBody = false` is the `body == nil`
call.  `d.File[n]` read past the entry list is the Go panic (`.oob`).
In the non-ZIP64 case only the offset and the entry count are checked
against the 32-bit limits before the end record is emitted. -/
def Truncate (d : Directory) (n : Nat) (includeBody : Bool) :
    Except ZErr (List Nat × List Nat) := do
  let body ← if includeBody then truncBody d n else pure []
  if h : n < d.File.length then
    let cdOffset := (d.File.get ⟨n, h⟩).Offset
    let blobs := (d.File.take n).map GetDirectoryHeader
    let size := (blobs.map List.length).sum
    if ¬ d.end64.Signature = 0 then
      pure (body, blobs.flatten ++
        ser64End { d.end64 with
          DiskCDCount := n, TotalCDCount := n,
          CDSize := size, CDOffset := cdOffset } ++
        serLoc64 { d.loc64 with Offset := cdOffset + size } ++
        serEndRecord d.endRec)
    else
      if uint32Max ≤ cdOffset ∨ uint16Max ≤ n then .error .tooLarge32
      else
        pure (body, blobs.flatten ++
          serEndRecord { d.endRec with
            DiskCDCount := n % 2 ^ 16, TotalCDCount := n % 2 ^ 16,
            CDSize := size % 2 ^ 32, CDOffset := cdOffset % 2 ^ 32 })
  else .error .oob

/-- AddFile (lines 333-346): stamp the file at the current directory
location, invalidating its cached raw header when its stored offset does
not already match, and advance `DirLoc` by the file's span.  `Size` is
not touched. -/
def AddFile (d : Directory) (f : File) : Except ZErr (Directory × File) :=
  match GetTotalSize f with
  | .error e => .error e
  | .ok size =>
    let offset := d.DirLoc
    let f1 := if ¬ f.Offset = offset then { f with raw := none } else f
    let f2 := { f1 with Offset := offset }
    .ok ({ d with DirLoc := d.DirLoc + size, File := d.File ++ [f2] }, f2)

/-- Local file header bytes of a stored 5-byte file named `a`
(CRC 0xAA), used by the concrete witness archives. -/
def lfh1 : List Nat :=
  le 4 0x04034b50 ++ le 2 20 ++ le 2 0 ++ le 2 0 ++ le 2 0 ++ le 2 0 ++
  le 4 0xAA ++ le 4 5 ++ le 4 5 ++ le 2 1 ++ le 2 0 ++ [97]

/-- Central-directory record for the entry of `lfh1` at offset 0. -/
def cdrec1 : List Nat :=
  le 4 directoryHeaderSignature ++ le 2 20 ++ le 2 20 ++ le 2 0 ++
  le 2 0 ++ le 2 0 ++ le 2 0 ++ le 4 0xAA ++ le 4 5 ++ le 4 5 ++
  le 2 1 ++ le 2 0 ++ le 2 0 ++ le 2 0 ++ le 2 0 ++ le 4 0 ++ le 4 0 ++ [97]

/-- A complete one-entry archive: local header + data + central
directory + end record (105 bytes). -/
def arch1 : List Nat :=
  lfh1 ++ [1, 2, 3, 4, 5] ++ cdrec1 ++
  serEndRecord ⟨directoryEndSignature, 0, 0, 1, 1, 47, 36, 0⟩

/-- Whether an Except value is the ok constructor. -/
def isOkE {ε α : Type} : Except ε α → Bool
  | .ok _ => true
  | .error _ => false

/-- Local file header bytes of a stored 5-byte file named `b`. -/
def lfh2 : List Nat :=
  le 4 0x04034b50 ++ le 2 20 ++ le 2 0 ++ le 2 0 ++ le 2 0 ++ le 2 0 ++
  le 4 0xBB ++ le 4 5 ++ le 4 5 ++ le 2 1 ++ le 2 0 ++ [98]

/-- Central-directory record for the entry of `lfh2` at offset 36. -/
def cdrec2 : List Nat :=
  le 4 directoryHeaderSignature ++ le 2 20 ++ le 2 20 ++ le 2 0 ++
  le 2 0 ++ le 2 0 ++ le 2 0 ++ le 4 0xBB ++ le 4 5 ++ le 4 5 ++
  le 2 1 ++ le 2 0 ++ le 2 0 ++ le 2 0 ++ le 2 0 ++ le 4 0 ++ le 4 36 ++ [98]

/-- A complete two-entry archive (188 bytes). -/
def arch2 : List Nat :=
  lfh1 ++ [1, 2, 3, 4, 5] ++ lfh2 ++ [6, 7, 8, 9, 10] ++ cdrec1 ++ cdrec2 ++
  serEndRecord ⟨directoryEndSignature, 0, 0, 2, 2, 94, 72, 0⟩

/-- A central-directory blob with one record whose uncompressed size is
the 32-bit sentinel and whose extra field is empty, followed by an end
record. -/
def cdU2 : List Nat :=
  le 4 directoryHeaderSignature ++ le 2 20 ++ le 2 45 ++ le 2 0 ++
  le 2 0 ++ le 2 0 ++ le 2 0 ++ le 4 0xCC ++ le 4 5 ++ le 4 uint32Max ++
  le 2 1 ++ le 2 0 ++ le 2 0 ++ le 2 0 ++ le 2 0 ++ le 4 0 ++ le 4 0 ++
  [97] ++ serEndRecord ⟨directoryEndSignature, 0, 0, 1, 1, 47, 0, 0⟩

/-- A directory with one cached entry whose reader version is exactly 45,
with every count, size and offset far below the 32-bit limits. -/
def d3 : Directory :=
  ⟨[⟨20, 45, 0, 0, 0, 0, 7, 5, 5, 0, 0, 0, [97], [], [],
     some (List.replicate 46 0), [], 0⟩], 56, 10, [], zero64, zeroLoc,
   zeroEnd⟩

/-- An entry with a 70000-byte cached header blob at offset 1000. -/
def fBig : File :=
  ⟨20, 20, 0, 0, 0, 0, 0, 5, 5, 0, 0, 1000, [97], [], [],
   some (List.replicate 70000 0), [], 0⟩

/-- A non-ZIP64 directory with 61358 such entries: truncating to 61357
entries keeps the entry count and the offset below the 16/32-bit limits
while the truncated central-directory size exceeds `2 ^ 32`. -/
def dBig : Directory :=
  ⟨List.replicate 61358 fBig, 0, 0, [], zero64, zeroLoc, zeroEnd⟩

/-- The directory read from `arch2` (total function for the concrete
witness; `Read arch2` succeeds, as the witness theorems show). -/
def d6 : Directory :=
  match Read arch2 with
  | .ok d => d
  | .error _ => ⟨[], 0, 0, [], zero64, zeroLoc, zeroEnd⟩

/-- A fresh entry whose local header sits at offset 0 of `arch2`. -/
def f6 : File :=
  ⟨20, 20, 0, 0, 0, 0, 1, 5, 5, 0, 0, 0, [99], [], [], none, arch2, 188⟩

/-- The directory after adding `f6` to `d6`. -/
def d6a : Directory :=
  match AddFile d6 f6 with
  | .ok (d2, _) => d2
  | .error _ => d6

/-- The serialized size of the in-memory directory: every entry header
plus the end-of-directory records (ZIP64 end and locator when present,
and the 22-byte end record); the reading of "in-memory directory size"
in the spec's invariant. -/
def inMemDirSize (d : Directory) : Nat :=
  wdSize d + (if d.end64.Signature = 0 then directoryEndLen
    else directory64EndLen + directory64LocLen + directoryEndLen)

/-- Observable entry content named by the round-trip claims: name, CRC32,
compressed size, uncompressed size, local-header offset. -/
def obs (f : File) : List Nat × Nat × Nat × Nat × Nat :=
  (f.Name, f.CRC32, f.CompressedSize, f.UncompressedSize, f.Offset)

/-- An entry is a parsed entry when it is the result of one turn of the
ReadWithDirectory loop on some central-directory bytes: its cached raw
header reproduces exactly the fields stored in it. -/
def ParsedEntry (f : File) : Prop :=
  ∃ r rs cd st,
    rdLE 4 cd = directoryHeaderSignature ∧ recLen cd ≤ cd.length ∧
    zip64Check (sliceN cd (directoryHeaderLen + rdAt cd 28 2) (rdAt cd 30 2))
      (seedState cd) = .ok st ∧
    f = mkEntry r rs cd st (recLen cd)

/-- A degenerate but readable archive: two end records back to back, the
final one placing the central directory at offset 0.  Reading it yields
an empty directory whose re-serialization is a bare 22-byte end record,
too short for FindDirectory's 42-byte probe. -/
def arch44 : List Nat :=
  serEndRecord ⟨directoryEndSignature, 0, 0, 0, 0, 0, 0, 0⟩ ++
  serEndRecord ⟨directoryEndSignature, 0, 0, 0, 0, 22, 0, 0⟩

/-- Re-point an entry at another backing reader (the only fields of a
parsed entry that depend on the reader rather than on its raw bytes). -/
def stamp (r : List Nat) (rs : Nat) (f : File) : File :=
  { f with r := r, rs := rs }

end Zipslicer

namespace Pkcs9

/-!
Embedding of the pkcs9 timestamp layer (source file `timestamp.go` of the
pkcs9 package, provided as `src/unnamed/part_001`).  The pkcs7 package it
builds on (attribute access, `Verify`, `Marshal`) is not under src, so
those primitives are modelled from the spec as abstract operations
(`P7Ops`): attributes are (oid, value) pairs whose decode can fail,
`GetOne` returns a no-attribute error when the oid is absent, and the
cryptographic verifications are opaque fallible functions.  The control
flow of part_001 is translated line by line against these operations. -/

/-- OIDs, as abstract distinct tags. -/
def OidAttributeTimeStampToken : Nat := 1

def OidSpcTimeStampToken : Nat := 2

def OidAttributeCounterSign : Nat := 3

def OidAttributeSigningTime : Nat := 4

/-- An attribute: oid, whether its value decodes, and the decoded value
(an opaque handle). -/
structure Attr where
  oid : Nat
  decodes : Bool
  val : Nat
  deriving DecidableEq

/-- Errors of the modelled pkcs7/pkcs9 operations.  `oob` is the Go panic
on indexing `SignerInfos[0]` of an empty list; `selfCheckFailed` is the
wrapped "failed signature self-check" error of TimestampAndMarshal. -/
inductive PErr where
  | noAttribute
  | decodeFailed
  | verifyFailed (code : Nat)
  | unknownDigest
  | timestampFailed (code : Nat)
  | marshalFailed
  | selfCheckFailed
  | oob
  deriving DecidableEq

/-- Modelled from the spec: `AttributeList.GetOne` of the pkcs7 package
(not under src).  Returns the value of the first attribute with the given
oid, a decode error if its value does not decode, and `ErrNoAttribute`
when no attribute with the oid exists. -/
def getOne (attrs : List Attr) (oid : Nat) : Except PErr Nat :=
  match attrs.find? (fun a => a.oid = oid) with
  | none => .error .noAttribute
  | some a => if a.decodes then .ok a.val else .error .decodeFailed

/-- A signer info (pkcs7.SignerInfo), with only the fields part_001
touches. -/
structure SignerInfo where
  digestAlgorithm : Nat
  encryptedDigest : List Nat
  authAttrs : List Attr
  unauthAttrs : List Attr
  deriving DecidableEq

/-- A validated signature (pkcs7.Signature). -/
structure Sig where
  signerInfo : SignerInfo
  intermediates : Nat
  deriving DecidableEq

/-- Validated timestamp token (CounterSignature of part_001). -/
structure CounterSig where
  sig : Sig
  hash : Nat
  signingTime : Nat
  deriving DecidableEq

/-- Validated signature with optional timestamp (TimestampedSignature). -/
structure TimestampedSig where
  sig : Sig
  counterSignature : Option CounterSig
  raw : List Nat
  deriving DecidableEq

/-- A pkcs7.ContentInfoSignedData, with only the signer infos visible;
everything else is behind the abstract operations. -/
structure Psd where
  signerInfos : List SignerInfo
  rest : Nat
  deriving DecidableEq

/-- Modelled from the spec: the pkcs7 primitives used by part_001
(`Content.Verify`, `ContentInfo.Bytes`, `Marshal`, attribute-value
encoding) and the pkcs9 token verifiers (`Verify`, `finishVerify`, both
defined outside part_001), as abstract fallible operations. -/
structure P7Ops where
  verifyPsd : Psd → Except PErr Sig
  contentInfoBytes : Psd → Except PErr (List Nat)
  marshal : Psd → Except PErr (List Nat)
  encodeToken : Psd → Except PErr Nat
  verifyTst : Nat → List Nat → Nat → Except PErr CounterSig
  finishVerify : Nat → List Nat → Nat → Nat → Except PErr CounterSig
  pkixDigestToHash : Nat → Option Nat

/-- AddStampToSignedData (lines 70-72): wrap the token as an
unauthenticated attribute under the generic timestamp-token oid. -/
def AddStampToSignedData (ops : P7Ops) (si : SignerInfo) (token : Psd) :
    Except PErr SignerInfo :=
  (ops.encodeToken token).map fun v =>
    { si with unauthAttrs :=
        si.unauthAttrs ++ [⟨OidAttributeTimeStampToken, true, v⟩] }

/-- AddStampToSignedAuthenticode (lines 75-77): same under the
Authenticode oid. -/
def AddStampToSignedAuthenticode (ops : P7Ops) (si : SignerInfo)
    (token : Psd) : Except PErr SignerInfo :=
  (ops.encodeToken token).map fun v =>
    { si with unauthAttrs :=
        si.unauthAttrs ++ [⟨OidSpcTimeStampToken, true, v⟩] }

/-- VerifyPkcs7 (lines 97-124): look for a timestamp token under either
oid, else a legacy counter-signature; absence of all three yields
`none` with no error. -/
def VerifyPkcs7 (ops : P7Ops) (sig : Sig) : Except PErr (Option CounterSig) :=
  let tst1 := getOne sig.signerInfo.unauthAttrs OidAttributeTimeStampToken
  let tst := match tst1 with
    | .error .noAttribute => getOne sig.signerInfo.unauthAttrs OidSpcTimeStampToken
    | _ => tst1
  match tst with
  | .ok v =>
    (ops.verifyTst v sig.signerInfo.encryptedDigest sig.intermediates).map some
  | .error .noAttribute =>
    match getOne sig.signerInfo.unauthAttrs OidAttributeCounterSign with
    | .error .noAttribute => .ok none
    | .error e => .error e
    | .ok v =>
      let imprintHash :=
        (ops.pkixDigestToHash sig.signerInfo.digestAlgorithm).getD 0
      (ops.finishVerify v sig.signerInfo.encryptedDigest sig.intermediates
        imprintHash).map some
  | .error e => .error e

/-- VerifyOptionalTimestamp (lines 130-138). -/
def VerifyOptionalTimestamp (ops : P7Ops) (sig : Sig) :
    Except PErr TimestampedSig :=
  match VerifyPkcs7 ops sig with
  | .error e => .error e
  | .ok ts => .ok ⟨sig, ts, []⟩

/-- A timestamper: Timestamp(ctx, request) returning a token. -/
structure Request where
  encryptedDigest : List Nat
  hash : Nat

/-- The attach phase of TimestampAndMarshal (lines 34-52): when a
timestamper is configured, obtain a token for the first signer info's
encrypted digest and attach it under the oid selected by `authenticode`.
Indexing `SignerInfos[0]` of an empty list is the Go panic. -/
def attachPhase (ops : P7Ops) (psd : Psd)
    (timestamper : Option (Request → Except PErr Psd))
    (authenticode : Bool) : Except PErr Psd :=
  match timestamper with
  | none => .ok psd
  | some ts =>
    if h : 0 < psd.signerInfos.length then
      let si := psd.signerInfos.get ⟨0, h⟩
      match ops.pkixDigestToHash si.digestAlgorithm with
      | none => .error .unknownDigest
      | some hash =>
        match ts ⟨si.encryptedDigest, hash⟩ with
        | .error e => .error e
        | .ok token =>
          match (if authenticode then
              AddStampToSignedAuthenticode ops si token
            else AddStampToSignedData ops si token) with
          | .error e => .error e
          | .ok si1 => .ok { psd with signerInfos := psd.signerInfos.set 0 si1 }
    else .error .oob

/-- TimestampAndMarshal (lines 33-67): attach, then self-check (re-verify
the inner signature and the attached timestamp), and only marshal a
structure that passed the self-check. -/
def TimestampAndMarshal (ops : P7Ops) (psd : Psd)
    (timestamper : Option (Request → Except PErr Psd))
    (authenticode : Bool) : Except PErr TimestampedSig :=
  match attachPhase ops psd timestamper authenticode with
  | .error e => .error e
  | .ok psd1 =>
    match ops.verifyPsd psd1 with
    | .error _ => .error .selfCheckFailed
    | .ok verified =>
      match VerifyOptionalTimestamp ops verified with
      | .error _ => .error .selfCheckFailed
      | .ok ts =>
        match ops.marshal psd1 with
        | .error e => .error e
        | .ok blob => .ok { ts with raw := blob }

/-- VerifyMicrosoftToken (lines 176-199).  The Go code logs a warning on
a content/digest mismatch and continues; the model returns the warning
flag alongside the counter-signature. -/
def VerifyMicrosoftToken (ops : P7Ops) (token : Psd)
    (encryptedDigest : List Nat) : Except PErr (CounterSig × Bool) :=
  match ops.verifyPsd token with
  | .error e => .error e
  | .ok sig =>
    match ops.contentInfoBytes token with
    | .error e => .error e
    | .ok content =>
      let warned := ¬ content = encryptedDigest
      let hash := (ops.pkixDigestToHash sig.signerInfo.digestAlgorithm).getD 0
      match getOne sig.signerInfo.authAttrs OidAttributeSigningTime with
      | .error e => .error e
      | .ok t => .ok (⟨sig, hash, t⟩, decide warned)

/-- Concrete signature whose authenticated attributes hold a signing
time, used by the witness instantiations. -/
def sig0 : Sig := ⟨⟨0, [1, 2], [⟨OidAttributeSigningTime, true, 5⟩], []⟩, 0⟩

/-- Concrete counter-signature for the witness operations. -/
def cs0 : CounterSig := ⟨sig0, 0, 5⟩

/-- Concrete operations for the witness instantiations: verification
always yields `sig0`, the content bytes are `[9]`, marshalling yields
`[7]`. -/
def ops0 : P7Ops :=
  ⟨fun _ => .ok sig0, fun _ => .ok [9], fun _ => .ok [7], fun _ => .ok 3,
   fun _ _ _ => .ok cs0, fun _ _ _ _ => .ok cs0, fun _ => some 2⟩

/-- Concrete signed data with one signer info and no attributes. -/
def psd0 : Psd := ⟨[⟨0, [1, 2], [], []⟩], 0⟩

/-- Concrete signature with no unauthenticated attributes at all. -/
def sigW : Sig := ⟨⟨0, [], [], []⟩, 0⟩

end Pkcs9

namespace Zipslicer

@[simp] theorem le_length (k n : Nat) : (le k n).length = k := by
  induction k generalizing n with
  | zero => rfl
  | succ k ih => simp [le, ih]

theorem modSplit (n a b : Nat) : n % (a * b) = a * (n / a % b) + n % a := by
  conv_lhs => rw [← Nat.div_add_mod (n % (a * b)) a]
  rw [Nat.mod_mul_right_div_self, Nat.mod_mod_of_dvd _ ⟨b, rfl⟩]

theorem rdLE_le (k n : Nat) (r : List Nat) :
    rdLE k (le k n ++ r) = n % 256 ^ k := by
  induction k generalizing n with
  | zero => simp [rdLE, le, Nat.mod_one]
  | succ k ih =>
    show n % 256 + 256 * rdLE k (le k (n / 256) ++ r) = n % 256 ^ (k + 1)
    rw [ih, pow_succ', modSplit]
    omega

theorem zip64WalkF_add (fuel k : Nat) :
    ∀ (extra : List Nat) (s : Zip64State), extra.length ≤ fuel →
      zip64WalkF (fuel + k) extra s = zip64WalkF fuel extra s := by
  induction fuel with
  | zero =>
    intro extra s h
    have hx : extra = [] := List.eq_nil_of_length_eq_zero (Nat.le_zero.mp h)
    subst hx
    cases k with
    | zero => rfl
    | succ k => simp [zip64WalkF]
  | succ fuel ih =>
    intro extra s h
    show zip64WalkF (fuel + 1 + k) extra s = zip64WalkF (fuel + 1) extra s
    have hk : fuel + 1 + k = (fuel + k) + 1 := by omega
    rw [hk]
    simp only [zip64WalkF]
    by_cases h4 : extra.length < 4
    · simp [h4]
    · simp only [h4, if_false]
      by_cases hsz : extra.length - 4 < rdAt extra 2 2
      · simp [hsz]
      · simp only [hsz, if_false]
        by_cases htag : rdLE 2 extra = zip64ExtraID
        · simp [htag]
        · simp only [htag, if_false]
          exact ih _ s (by simp only [List.length_drop]; omega)

theorem zip64WalkF_adequate (fuel : Nat) (extra : List Nat) (s : Zip64State)
    (h : extra.length ≤ fuel) : zip64WalkF fuel extra s = zip64Walk extra s := by
  unfold zip64Walk
  conv_lhs => rw [show fuel = extra.length + (fuel - extra.length) by omega]
  exact zip64WalkF_add _ _ _ s (Nat.le_refl _)

theorem zip64Walk_eqn (extra : List Nat) (s : Zip64State) :
    zip64Walk extra s =
      if extra.length < 4 then s
      else
        let sz := rdAt extra 2 2
        if extra.length - 4 < sz then s
        else if rdLE 2 extra = zip64ExtraID then
          zip64Apply (sliceN extra 4 sz) sz s
        else zip64Walk (extra.drop (4 + sz)) s := by
  have h1 : zip64Walk extra s = zip64WalkF (extra.length + 1) extra s :=
    (zip64WalkF_adequate _ _ _ (Nat.le_succ _)).symm
  rw [h1]
  simp only [zip64WalkF]
  by_cases h4 : extra.length < 4
  · simp [h4]
  · simp only [h4, if_false]
    by_cases hsz : extra.length - 4 < rdAt extra 2 2
    · simp [hsz]
    · simp only [hsz, if_false]
      by_cases htag : rdLE 2 extra = zip64ExtraID
      · simp [htag]
      · simp only [htag, if_false]
        exact zip64WalkF_adequate _ _ s
          (by simp only [List.length_drop]; omega)

theorem parseEntriesF_add (r : List Nat) (rs : Nat) (fuel k : Nat) :
    ∀ cd : List Nat, cd.length ≤ fuel →
      parseEntriesF r rs (fuel + k) cd = parseEntriesF r rs fuel cd := by
  induction fuel with
  | zero =>
    intro cd h
    have hx : cd = [] := List.eq_nil_of_length_eq_zero (Nat.le_zero.mp h)
    subst hx
    cases k with
    | zero => rfl
    | succ k => simp [parseEntriesF]
  | succ fuel ih =>
    intro cd h
    have hk : fuel + 1 + k = (fuel + k) + 1 := by omega
    rw [hk]
    simp only [parseEntriesF]
    by_cases h4 : cd.length < 4
    · simp [h4]
    · simp only [h4, if_false]
      by_cases hsig : ¬ rdLE 4 cd = directoryHeaderSignature
      · simp [hsig]
      · simp only [hsig, if_false]
        by_cases hL : cd.length < recLen cd
        · simp [hL]
        · simp only [hL, if_false]
          have hrec : parseEntriesF r rs (fuel + k) (cd.drop (recLen cd)) =
              parseEntriesF r rs fuel (cd.drop (recLen cd)) := by
            apply ih
            simp only [List.length_drop]
            simp only [recLen, directoryHeaderLen] at hL ⊢
            omega
          rw [hrec]

theorem parseEntriesF_adequate (r : List Nat) (rs fuel : Nat)
    (cd : List Nat) (h : cd.length ≤ fuel) :
    parseEntriesF r rs fuel cd = parseEntries r rs cd := by
  unfold parseEntries
  conv_lhs => rw [show fuel = cd.length + (fuel - cd.length) by omega]
  exact parseEntriesF_add r rs _ _ cd (Nat.le_refl _)

theorem parseEntries_eqn (r : List Nat) (rs : Nat) (cd : List Nat) :
    parseEntries r rs cd =
      if cd.length < 4 then .error .oob
      else if ¬ rdLE 4 cd = directoryHeaderSignature then .ok ([], cd)
      else if cd.length < recLen cd then .error .oob
      else
        match zip64Check
            (sliceN cd (directoryHeaderLen + rdAt cd 28 2) (rdAt cd 30 2))
            (seedState cd) with
        | .error e => .error e
        | .ok st =>
          match parseEntries r rs (cd.drop (recLen cd)) with
          | .ok (fs, rest) => .ok (mkEntry r rs cd st (recLen cd) :: fs, rest)
          | .error e => .error e := by
  have h1 : parseEntries r rs cd = parseEntriesF r rs (cd.length + 1) cd :=
    (parseEntriesF_adequate _ _ _ _ (Nat.le_succ _)).symm
  rw [h1]
  simp only [parseEntriesF]
  by_cases h4 : cd.length < 4
  · simp [h4]
  · simp only [h4, if_false]
    by_cases hsig : ¬ rdLE 4 cd = directoryHeaderSignature
    · simp [hsig]
    · simp only [hsig, if_false]
      by_cases hL : cd.length < recLen cd
      · simp [hL]
      · simp only [hL, if_false]
        have hrec : parseEntriesF r rs cd.length (cd.drop (recLen cd)) =
            parseEntries r rs (cd.drop (recLen cd)) := by
          apply parseEntriesF_adequate
          simp only [List.length_drop]
          omega
        rw [hrec]

theorem rdLE_append (k : Nat) (xs ys : List Nat) (h : k ≤ xs.length) :
    rdLE k (xs ++ ys) = rdLE k xs := by
  induction k generalizing xs with
  | zero => rfl
  | succ k ih =>
    cases xs with
    | nil => simp at h
    | cons b bs =>
      show b + 256 * rdLE k (bs ++ ys) = b + 256 * rdLE k bs
      rw [ih bs (by simpa using h)]

theorem dropAppend (a b : List Nat) (off : Nat) (h : a.length ≤ off) :
    (a ++ b).drop off = b.drop (off - a.length) := by
  conv_lhs => rw [show off = a.length + (off - a.length) by omega]
  exact List.drop_append _

theorem rdAt_peel (j x : Nat) (rest : List Nat) (off k : Nat) (h : j ≤ off) :
    rdAt (le j x ++ rest) off k = rdAt rest (off - j) k := by
  unfold rdAt
  rw [dropAppend (le j x) rest off (by rw [le_length]; exact h), le_length]

theorem rdAt_read (k x : Nat) (rest : List Nat) :
    rdAt (le k x ++ rest) 0 k = x % 256 ^ k := by
  unfold rdAt
  rw [List.drop_zero]
  exact rdLE_le k x rest

theorem rdLE_flat (k x : Nat) (rest : List Nat) :
    rdLE k (le k x ++ rest) = x % 256 ^ k := rdLE_le k x rest

theorem parse_nil_inv (r : List Nat) (rs : Nat) (cd rest : List Nat)
    (h : parseEntries r rs cd = .ok ([], rest)) :
    rest = cd ∧ 4 ≤ cd.length ∧ ¬ rdLE 4 cd = directoryHeaderSignature := by
  rw [parseEntries_eqn] at h
  split_ifs at h with h4 hsig hL
  · split at h
    · exact absurd h (by simp)
    · split at h
      · simp at h
      · exact absurd h (by simp)
  · simp only [Except.ok.injEq, Prod.mk.injEq, true_and] at h
    exact ⟨h.symm, by omega, hsig⟩

theorem parse_cons_inv (r : List Nat) (rs : Nat) (cd : List Nat) (f : File)
    (fs : List File) (rest : List Nat)
    (h : parseEntries r rs cd = .ok (f :: fs, rest)) :
    ∃ st, 4 ≤ cd.length ∧ rdLE 4 cd = directoryHeaderSignature ∧
      recLen cd ≤ cd.length ∧
      zip64Check (sliceN cd (directoryHeaderLen + rdAt cd 28 2) (rdAt cd 30 2))
        (seedState cd) = .ok st ∧
      f = mkEntry r rs cd st (recLen cd) ∧
      parseEntries r rs (cd.drop (recLen cd)) = .ok (fs, rest) := by
  rw [parseEntries_eqn] at h
  split_ifs at h with h4 hsig hL
  · cases hzc : zip64Check
        (sliceN cd (directoryHeaderLen + rdAt cd 28 2) (rdAt cd 30 2))
        (seedState cd) with
    | error e => rw [hzc] at h; exact absurd h (by simp)
    | ok st =>
      rw [hzc] at h
      cases hp : parseEntries r rs (cd.drop (recLen cd)) with
      | error e => rw [hp] at h; exact absurd h (by simp)
      | ok p =>
        obtain ⟨fs2, rest2⟩ := p
        rw [hp] at h
        simp only [Except.ok.injEq, Prod.mk.injEq, List.cons.injEq] at h
        obtain ⟨⟨hf, hfs⟩, hrest⟩ := h
        exact ⟨st, by omega, hsig, by omega, rfl, hf.symm, by rw [hfs, hrest]⟩
  · simp at h

theorem parse_consumed (r : List Nat) (rs : Nat) :
    ∀ (fs : List File) (cd rest : List Nat),
      parseEntries r rs cd = .ok (fs, rest) →
      ((fs.map GetDirectoryHeader).map List.length).sum + rest.length =
        cd.length := by
  intro fs
  induction fs with
  | nil =>
    intro cd rest h
    obtain ⟨h1, _, _⟩ := parse_nil_inv r rs cd rest h
    simp [h1]
  | cons f fs ih =>
    intro cd rest h
    obtain ⟨st, h4, hsig, hL, hst, hf, hrec⟩ := parse_cons_inv r rs cd f fs rest h
    have hlen := ih (cd.drop (recLen cd)) rest hrec
    have hblob : (GetDirectoryHeader f).length = recLen cd := by
      rw [hf]
      show (cd.take (recLen cd)).length = recLen cd
      rw [List.length_take]
      omega
    simp only [List.map_cons, List.sum_cons, hblob]
    simp only [List.length_drop] at hlen
    omega

set_option maxHeartbeats 1000000 in
theorem zip64Apply_fields (e : List Nat) (sz : Nat) (s : Zip64State) :
    zip64Apply e sz s =
      ⟨if s.needU ∧ 8 ≤ sz then rdLE 8 e else s.UncompressedSize,
       if s.needC ∧ 16 ≤ sz then rdAt e 8 8 else s.CompressedSize,
       if s.needO ∧ 24 ≤ sz then rdAt e 16 8 else s.Offset,
       if 8 ≤ sz then false else s.needU,
       if 16 ≤ sz then false else s.needC,
       if 24 ≤ sz then false else s.needO⟩ := by
  obtain ⟨u, c, o, nu, nc, no⟩ := s
  cases nu <;> cases nc <;> cases no <;>
    by_cases h8 : 8 ≤ sz <;> by_cases h16 : 16 ≤ sz <;> by_cases h24 : 24 ≤ sz <;>
    simp_all [zip64Apply]
  all_goals (first | omega | (split_ifs <;> simp_all <;> try omega) | rfl)

/-- C9: Truncate reads `d.File[n]` unconditionally to obtain the truncated
directory offset (with a nil body writer nothing precedes that read), so
in the total embedding the out-of-range panic is the result exactly when
`n` is not strictly below the entry count. -/
theorem c9_truncate_index_panic (d : Directory) (n : Nat) :
    Truncate d n false = .error .oob ↔ d.File.length ≤ n := by
  unfold Truncate
  simp only [Bool.false_eq_true, if_false, Bind.bind, Except.bind, pure,
    Except.pure]
  by_cases h : n < d.File.length
  · rw [dif_pos h]
    constructor
    · intro hEq
      exfalso
      split at hEq
      · exact Except.noConfusion hEq
      · split at hEq
        · simp at hEq
        · exact Except.noConfusion hEq
    · intro hle
      omega
  · rw [dif_neg h]
    constructor
    · intro _
      omega
    · intro _
      rfl

/-- C2 counterexample: a record whose uncompressed size is the 32-bit
sentinel and whose extra field holds no ZIP64 data parses successfully
with the sentinel kept as the size, although the claim requires a
malformed-archive error for any missing required ZIP64 field. -/
theorem c2_counterexample :
    isOkE (ReadWithDirectory [] 200 cdU2) = true ∧
    (match ReadWithDirectory [] 200 cdU2 with
     | .ok d => d.File.map fun f => f.UncompressedSize
     | .error _ => []) = [uint32Max] := ⟨rfl, rfl⟩

/-- C2 amended: on a well-formed `0x0001` extra block the 64-bit fields
are read at the fixed payload offsets 0, 8 and 16 (requiring payload
lengths 8, 16 and 24 respectively), each replaced only when its 32-bit
field was the sentinel; after the walk, only a still-needed compressed
size or offset raises the malformed-archive error - a still-needed
uncompressed size is tolerated. -/
theorem c2_zip64_fixed_layout (payload : List Nat) (s : Zip64State)
    (hlen : payload.length < 2 ^ 16) :
    zip64Walk (le 2 zip64ExtraID ++ (le 2 payload.length ++ payload)) s =
      zip64Apply payload payload.length s ∧
    (zip64Apply payload payload.length s).UncompressedSize =
      (if s.needU ∧ 8 ≤ payload.length then rdAt payload 0 8
       else s.UncompressedSize) ∧
    (zip64Apply payload payload.length s).CompressedSize =
      (if s.needC ∧ 16 ≤ payload.length then rdAt payload 8 8
       else s.CompressedSize) ∧
    (zip64Apply payload payload.length s).Offset =
      (if s.needO ∧ 24 ≤ payload.length then rdAt payload 16 8
       else s.Offset) ∧
    (zip64Apply payload payload.length s).needU =
      (if 8 ≤ payload.length then false else s.needU) ∧
    (zip64Apply payload payload.length s).needC =
      (if 16 ≤ payload.length then false else s.needC) ∧
    (zip64Apply payload payload.length s).needO =
      (if 24 ≤ payload.length then false else s.needO) ∧
    (zip64Check (le 2 zip64ExtraID ++ (le 2 payload.length ++ payload)) s =
        .error .missingZip64 ↔
      ((zip64Apply payload payload.length s).needC = true ∨
       (zip64Apply payload payload.length s).needO = true)) := by
  have h2 : (256 : Nat) ^ 2 = 2 ^ 16 := by norm_num
  have hE : (le 2 zip64ExtraID ++ (le 2 payload.length ++ payload)).length =
      4 + payload.length := by
    simp only [List.length_append, le_length]
    omega
  have hsz : rdAt (le 2 zip64ExtraID ++ (le 2 payload.length ++ payload)) 2 2 =
      payload.length := by
    rw [rdAt_peel 2 zip64ExtraID (le 2 payload.length ++ payload) 2 2 (by omega)]
    rw [show (2 - 2 : Nat) = 0 from rfl, rdAt_read, h2, Nat.mod_eq_of_lt hlen]
  have htag : rdLE 2 (le 2 zip64ExtraID ++ (le 2 payload.length ++ payload)) =
      zip64ExtraID := by
    rw [rdLE_flat]
    norm_num [zip64ExtraID]
  have hslice : sliceN (le 2 zip64ExtraID ++ (le 2 payload.length ++ payload)) 4
      payload.length = payload := by
    show ((le 2 zip64ExtraID ++ (le 2 payload.length ++ payload)).drop 4).take
      payload.length = payload
    rw [dropAppend (le 2 zip64ExtraID) _ 4 (by rw [le_length]; omega)]
    simp only [le_length]
    rw [show (4 - 2 : Nat) = 2 from rfl]
    rw [dropAppend (le 2 payload.length) payload 2 (by rw [le_length])]
    simp only [le_length, Nat.sub_self, List.drop_zero]
    simp
  have hwalk : zip64Walk (le 2 zip64ExtraID ++ (le 2 payload.length ++ payload)) s =
      zip64Apply payload payload.length s := by
    rw [zip64Walk_eqn]
    simp only [hE, hsz, htag, hslice]
    rw [if_neg (by omega), if_neg (by omega)]
    simp
  refine ⟨hwalk, ?_, ?_, ?_, ?_, ?_, ?_, ?_⟩
  · rw [zip64Apply_fields]
    rfl
  · rw [zip64Apply_fields]
  · rw [zip64Apply_fields]
  · rw [zip64Apply_fields]
  · rw [zip64Apply_fields]
  · rw [zip64Apply_fields]
  · simp only [zip64Check, hwalk]
    split_ifs with hco
    · simp only [true_iff]
      exact hco
    · constructor
      · intro hx
        exact absurd hx (by simp)
      · intro hx
        exact absurd hx hco

/-- C3 counterexample: a one-entry directory whose entry carries reader
version 45, with entry count, directory size and offset far below the
32-bit limits and `forceZip64 = false`, still gets a ZIP64
end-of-central-directory record, refuting the claimed "if and only if"
condition for emitting ZIP64. -/
theorem c3_counterexample :
    rdLE 4 (WriteDirectory d3 false).2 = directory64EndSignature ∧
    d3.File.length < uint16Max ∧ wdSize d3 < uint32Max ∧
    d3.DirLoc < uint32Max :=
  ⟨rfl, by decide, by decide, by decide⟩

/-- C3 amended: WriteDirectory emits the ZIP64 end records exactly when
one of {count, size, offset, force} reaches its limit OR the maximum of
2.0 and the entries' reader versions is exactly 45 (4.5); whenever ZIP64
is emitted, the recorded reader version is exactly 45 - higher entry
versions are overwritten, not kept. -/
theorem c3_zip64_choice (d : Directory) (force : Bool) :
    (rdLE 4 (WriteDirectory d force).2 = directory64EndSignature ↔
      (uint16Max ≤ d.File.length ∨ uint32Max ≤ wdSize d ∨
       uint32Max ≤ d.DirLoc ∨ force = true ∨ wdMinV0 d = zip45)) ∧
    ((uint16Max ≤ d.File.length ∨ uint32Max ≤ wdSize d ∨
       uint32Max ≤ d.DirLoc ∨ force = true ∨ wdMinV0 d = zip45) →
      rdAt (WriteDirectory d force).2 14 2 = zip45) := by
  have key : (WriteDirectory d force).2 =
      (if uint16Max ≤ d.File.length ∨ uint32Max ≤ wdSize d ∨
          uint32Max ≤ d.DirLoc ∨ force = true ∨ wdMinV0 d = zip45 then
        ser64End ⟨directory64EndSignature, directory64EndLen - 12, zip45,
          zip45, 0, 0, d.File.length, d.File.length, wdSize d, d.DirLoc⟩ ++
        serLoc64 ⟨directory64LocSignature, 0, d.DirLoc + wdSize d, 1⟩ ++
        serEndRecord ⟨directoryEndSignature, 0, 0, uint16Max, uint16Max,
          uint32Max, uint32Max, 0⟩
      else
        serEndRecord ⟨directoryEndSignature, 0, 0, d.File.length % 2 ^ 16,
          d.File.length % 2 ^ 16, wdSize d % 2 ^ 32, d.DirLoc % 2 ^ 32, 0⟩) := by
    simp only [WriteDirectory]
    by_cases hc : uint16Max ≤ d.File.length ∨ uint32Max ≤ wdSize d ∨
        uint32Max ≤ d.DirLoc ∨ force = true
    · rw [if_pos hc, if_pos rfl, if_pos (by tauto)]
    · rw [if_neg hc]
      by_cases hv : wdMinV0 d = zip45
      · rw [if_pos hv, hv, if_pos (by tauto)]
      · rw [if_neg hv, if_neg (by tauto)]
  rw [key]
  split_ifs with h
  · have hval : rdLE 4 (ser64End ⟨directory64EndSignature,
        directory64EndLen - 12, zip45, zip45, 0, 0, d.File.length,
        d.File.length, wdSize d, d.DirLoc⟩ ++
        serLoc64 ⟨directory64LocSignature, 0, d.DirLoc + wdSize d, 1⟩ ++
        serEndRecord ⟨directoryEndSignature, 0, 0, uint16Max, uint16Max,
          uint32Max, uint32Max, 0⟩) = directory64EndSignature := by
      simp only [ser64End, List.append_assoc]
      rw [rdLE_flat]
      norm_num [directory64EndSignature]
    refine ⟨iff_of_true hval h, fun _ => ?_⟩
    simp only [ser64End, serLoc64, serEndRecord, List.append_assoc]
    simp [rdAt_peel, rdAt_read, zip45]
  · have hval2 : rdLE 4 (serEndRecord ⟨directoryEndSignature, 0, 0,
        d.File.length % 2 ^ 16, d.File.length % 2 ^ 16, wdSize d % 2 ^ 32,
        d.DirLoc % 2 ^ 32, 0⟩) = directoryEndSignature := by
      simp only [serEndRecord, List.append_assoc]
      rw [rdLE_flat]
      norm_num [directoryEndSignature]
    refine ⟨iff_of_false ?_ h, fun hx => absurd hx h⟩
    rw [hval2]
    norm_num [directoryEndSignature, directory64EndSignature]

/-- C5 amended: for an in-range truncation index, Truncate fails with the
32-bit overflow error exactly when the original archive had no ZIP64 end
record and the truncated offset or the entry count reaches its limit -
the truncated central-directory SIZE is not checked (it is emitted modulo
`2 ^ 32`), and in the ZIP64 case the 32-bit end-record fields are carried
over from the original end record rather than recomputed. -/
theorem c5_truncate_limits (d : Directory) (n : Nat)
    (h : n < d.File.length) :
    Truncate d n false = .error .tooLarge32 ↔
      (d.end64.Signature = 0 ∧
        (uint32Max ≤ (d.File.get ⟨n, h⟩).Offset ∨ uint16Max ≤ n)) := by
  unfold Truncate
  simp only [Bool.false_eq_true, if_false, Bind.bind, Except.bind, pure,
    Except.pure]
  rw [dif_pos h]
  by_cases hz : ¬ d.end64.Signature = 0
  · rw [if_pos hz]
    constructor
    · intro hx
      exact absurd hx (by simp)
    · intro hx
      exact absurd hx.1 hz
  · rw [if_neg hz]
    push_neg at hz
    by_cases hco : uint32Max ≤ (d.File.get ⟨n, h⟩).Offset ∨ uint16Max ≤ n
    · rw [if_pos hco]
      exact iff_of_true rfl ⟨hz, hco⟩
    · rw [if_neg hco]
      constructor
      · intro hx
        exact absurd hx (by simp)
      · intro hx
        exact absurd hx.2 hco

/-- C6 counterexample: the directory read from the two-entry archive
satisfies the size equation, and adding a file breaks it - AddFile
advances DirLoc and appends an entry while leaving Size untouched. -/
theorem c6_counterexample :
    inMemDirSize d6 + d6.DirLoc = d6.Size ∧
    ¬ (inMemDirSize d6a + d6a.DirLoc = d6a.Size) :=
  ⟨rfl, by decide⟩

theorem truncate_ok32 (d : Directory) (n : Nat) (h : n < d.File.length)
    (hz : d.end64.Signature = 0)
    (hco : ¬ (uint32Max ≤ (d.File.get ⟨n, h⟩).Offset ∨ uint16Max ≤ n)) :
    isOkE (Truncate d n false) = true := by
  unfold Truncate
  simp only [Bool.false_eq_true, if_false, Bind.bind, Except.bind, pure,
    Except.pure]
  rw [dif_pos h]
  rw [if_neg (not_not_intro hz)]
  rw [if_neg hco]
  rfl

/-- C5 counterexample: a non-ZIP64 directory of 61358 entries with
70000-byte cached headers: truncating to 61357 entries keeps the entry
count and the offset within the 16/32-bit limits while the truncated
central-directory size exceeds the 32-bit maximum, yet Truncate succeeds
(the size is emitted modulo `2 ^ 32`) where the claim requires the
TooLargeFor32Bit failure. -/
theorem c5_counterexample :
    dBig.end64.Signature = 0 ∧
    uint32Max ≤ (((dBig.File.take 61357).map GetDirectoryHeader).map
      List.length).sum ∧
    isOkE (Truncate dBig 61357 false) = true := by
  have hfb : GetDirectoryHeader fBig = List.replicate 70000 0 := rfl
  have hfile : dBig.File = List.replicate 61358 fBig := rfl
  have hsum : (((dBig.File.take 61357).map GetDirectoryHeader).map
      List.length).sum = 61357 * 70000 := by
    rw [hfile, List.take_replicate, show (61357 ⊓ 61358) = 61357 by norm_num,
      List.map_replicate, List.map_replicate, List.sum_replicate, hfb,
      List.length_replicate, smul_eq_mul]
  have hlen : dBig.File.length = 61358 := by
    rw [hfile, List.length_replicate]
  have h61 : (61357 : Nat) < dBig.File.length := by omega
  have hz : dBig.end64.Signature = 0 := rfl
  have hoff : (dBig.File.get ⟨61357, h61⟩).Offset = 1000 := by
    have hg : dBig.File.get ⟨61357, h61⟩ = fBig := by
      simp only [List.get_eq_getElem, hfile, List.getElem_replicate]
    rw [hg]
    rfl
  exact ⟨hz, by rw [hsum]; norm_num [uint32Max],
    truncate_ok32 dBig 61357 h61 hz
      (by rw [hoff]; norm_num [uint32Max, uint16Max])⟩

theorem rdLE_take (k M : Nat) (xs : List Nat) (h : k ≤ M) :
    rdLE k (xs.take M) = rdLE k xs := by
  induction k generalizing xs M with
  | zero => rfl
  | succ k ih =>
    cases xs with
    | nil => rw [List.take_nil]
    | cons b bs =>
      obtain ⟨m, hm⟩ : ∃ m, M = m + 1 := ⟨M - 1, by omega⟩
      subst hm
      show b + 256 * rdLE k (bs.take m) = b + 256 * rdLE k bs
      rw [ih m bs (by omega)]

theorem rdAt_take_append (cd Z : List Nat) (L off k : Nat)
    (h1 : off + k ≤ L) (h2 : L ≤ cd.length) :
    rdAt (cd.take L ++ Z) off k = rdAt cd off k := by
  unfold rdAt
  rw [List.drop_append_of_le_length (by rw [List.length_take]; omega)]
  rw [rdLE_append k _ _ (by
    rw [List.length_drop, List.length_take]
    omega)]
  rw [List.drop_take]
  rw [rdLE_take k (L - off) _ (by omega)]

theorem sliceN_take_append (cd Z : List Nat) (L off k : Nat)
    (h1 : off + k ≤ L) (h2 : L ≤ cd.length) :
    sliceN (cd.take L ++ Z) off k = sliceN cd off k := by
  unfold sliceN
  rw [List.drop_append_of_le_length (by rw [List.length_take]; omega)]
  rw [List.take_append_of_le_length (by
    rw [List.length_drop, List.length_take]
    omega)]
  rw [List.drop_take]
  rw [List.take_take]
  rw [show min k (L - off) = k by omega]

theorem take_take_append (cd Z : List Nat) (L : Nat) (h2 : L ≤ cd.length) :
    (cd.take L ++ Z).take L = cd.take L :=
  List.take_left' (by rw [List.length_take]; omega)

theorem drop_take_append (cd Z : List Nat) (L : Nat) (h2 : L ≤ cd.length) :
    (cd.take L ++ Z).drop L = Z :=
  List.drop_left' (by rw [List.length_take]; omega)

@[simp] theorem serEnd_length (e : ZipEndRecord) :
    (serEndRecord e).length = 22 := by
  simp [serEndRecord, le_length]

@[simp] theorem serLoc_length (l : Zip64Loc) : (serLoc64 l).length = 20 := by
  simp [serLoc64, le_length]

@[simp] theorem ser64_length (e : Zip64End) : (ser64End e).length = 56 := by
  simp [ser64End, le_length]

theorem rdLE4_serEnd (e : ZipEndRecord) (T : List Nat) :
    rdLE 4 (serEndRecord e ++ T) = e.Signature % 256 ^ 4 := by
  simp only [serEndRecord, List.append_assoc]
  rw [rdLE_flat]

theorem rdLE4_ser64 (e : Zip64End) (T : List Nat) :
    rdLE 4 (ser64End e ++ T) = e.Signature % 256 ^ 4 := by
  simp only [ser64End, List.append_assoc]
  rw [rdLE_flat]

theorem parseEnd_serEnd (e : ZipEndRecord) (T : List Nat) :
    parseEndRecord (serEndRecord e ++ T) =
      ⟨e.Signature % 256 ^ 4, e.DiskNumber % 256 ^ 2, e.DiskCD % 256 ^ 2,
       e.DiskCDCount % 256 ^ 2, e.TotalCDCount % 256 ^ 2, e.CDSize % 256 ^ 4,
       e.CDOffset % 256 ^ 4, e.CommentLength % 256 ^ 2⟩ := by
  simp only [parseEndRecord, serEndRecord, List.append_assoc]
  simp [rdAt_peel, rdAt_read]

theorem parseLoc_serLoc (l : Zip64Loc) (T : List Nat) :
    parseLoc64 (serLoc64 l ++ T) =
      ⟨l.Signature % 256 ^ 4, l.DiskNumber % 256 ^ 4, l.Offset % 256 ^ 8,
       l.DiskCount % 256 ^ 4⟩ := by
  simp only [parseLoc64, serLoc64, List.append_assoc]
  simp [rdAt_peel, rdAt_read]

theorem parse64_ser64 (e : Zip64End) (T : List Nat) :
    parse64End (ser64End e ++ T) =
      ⟨e.Signature % 256 ^ 4, e.RecordSize % 256 ^ 8,
       e.CreatorVersion % 256 ^ 2, e.ReaderVersion % 256 ^ 2,
       e.DiskNumber % 256 ^ 4, e.DiskCD % 256 ^ 4, e.DiskCDCount % 256 ^ 8,
       e.TotalCDCount % 256 ^ 8, e.CDSize % 256 ^ 8,
       e.CDOffset % 256 ^ 8⟩ := by
  simp only [parse64End, ser64End, List.append_assoc]
  simp [rdAt_peel, rdAt_read]

theorem recLen_def (X : List Nat) :
    recLen X = directoryHeaderLen + rdAt X 28 2 + rdAt X 30 2 + rdAt X 32 2 :=
  rfl

theorem parse_step_blob (r2 : List Nat) (rs2 : Nat) (f : File)
    (hf : ParsedEntry f) (Z : List Nat) :
    parseEntries r2 rs2 (GetDirectoryHeader f ++ Z) =
      (match parseEntries r2 rs2 Z with
       | .ok (fs, rest) => .ok (stamp r2 rs2 f :: fs, rest)
       | .error e => .error e) := by
  obtain ⟨r, rs, cd, st, hsig, hL, hchk, hmk⟩ := hf
  have hblob : GetDirectoryHeader f = cd.take (recLen cd) := by
    rw [hmk]
    rfl
  have h46 : 46 ≤ recLen cd := by
    have := recLen_def cd
    simp only [directoryHeaderLen] at this
    omega
  have hLb : 46 + rdAt cd 28 2 + rdAt cd 30 2 + rdAt cd 32 2 = recLen cd := by
    have := recLen_def cd
    simp only [directoryHeaderLen] at this
    omega
  have hLlen : (cd.take (recLen cd) ++ Z).length = recLen cd + Z.length := by
    rw [List.length_append, List.length_take]
    omega
  have hrd : ∀ off k, off + k ≤ recLen cd →
      rdAt (cd.take (recLen cd) ++ Z) off k = rdAt cd off k :=
    fun off k h1 => rdAt_take_append cd Z (recLen cd) off k h1 hL
  have hsig2 : rdLE 4 (cd.take (recLen cd) ++ Z) = directoryHeaderSignature := by
    have h := hrd 0 4 (by omega)
    simp only [rdAt, List.drop_zero] at h
    rw [h, hsig]
  have hn : rdAt (cd.take (recLen cd) ++ Z) 28 2 = rdAt cd 28 2 :=
    hrd 28 2 (by omega)
  have he : rdAt (cd.take (recLen cd) ++ Z) 30 2 = rdAt cd 30 2 :=
    hrd 30 2 (by omega)
  have hc : rdAt (cd.take (recLen cd) ++ Z) 32 2 = rdAt cd 32 2 :=
    hrd 32 2 (by omega)
  have hrecL : recLen (cd.take (recLen cd) ++ Z) = recLen cd := by
    rw [recLen_def (cd.take (recLen cd) ++ Z), hn, he, hc]
    exact (recLen_def cd).symm
  have hseed : seedState (cd.take (recLen cd) ++ Z) = seedState cd := by
    unfold seedState
    rw [hrd 24 4 (by omega), hrd 20 4 (by omega), hrd 42 4 (by omega)]
  have hextra : sliceN (cd.take (recLen cd) ++ Z)
      (directoryHeaderLen + rdAt (cd.take (recLen cd) ++ Z) 28 2)
      (rdAt (cd.take (recLen cd) ++ Z) 30 2) =
      sliceN cd (directoryHeaderLen + rdAt cd 28 2) (rdAt cd 30 2) := by
    rw [hn, he]
    exact sliceN_take_append cd Z (recLen cd) _ _ (by
      simp only [directoryHeaderLen]
      omega) hL
  have hmk2 : mkEntry r2 rs2 (cd.take (recLen cd) ++ Z) st (recLen cd) =
      stamp r2 rs2 f := by
    rw [hmk]
    have hname : sliceN (cd.take (recLen cd) ++ Z) directoryHeaderLen
        (rdAt cd 28 2) = sliceN cd directoryHeaderLen (rdAt cd 28 2) :=
      sliceN_take_append cd Z (recLen cd) _ _ (by
        simp only [directoryHeaderLen]
        omega) hL
    have hext2 : sliceN (cd.take (recLen cd) ++ Z)
        (directoryHeaderLen + rdAt cd 28 2) (rdAt cd 30 2) =
        sliceN cd (directoryHeaderLen + rdAt cd 28 2) (rdAt cd 30 2) :=
      sliceN_take_append cd Z (recLen cd) _ _ (by
        simp only [directoryHeaderLen]
        omega) hL
    have hcom : sliceN (cd.take (recLen cd) ++ Z)
        (directoryHeaderLen + rdAt cd 28 2 + rdAt cd 30 2) (rdAt cd 32 2) =
        sliceN cd (directoryHeaderLen + rdAt cd 28 2 + rdAt cd 30 2)
          (rdAt cd 32 2) :=
      sliceN_take_append cd Z (recLen cd) _ _ (by
        simp only [directoryHeaderLen]
        omega) hL
    have hraw : (cd.take (recLen cd) ++ Z).take (recLen cd) =
        cd.take (recLen cd) := take_take_append cd Z (recLen cd) hL
    simp only [mkEntry, stamp, hn, he, hc, hrd 4 2 (by omega),
      hrd 6 2 (by omega), hrd 8 2 (by omega), hrd 10 2 (by omega),
      hrd 12 2 (by omega), hrd 14 2 (by omega), hrd 16 4 (by omega),
      hrd 36 2 (by omega), hrd 38 4 (by omega), hname, hext2, hcom, hraw]
  rw [hblob, parseEntries_eqn]
  rw [if_neg (by rw [hLlen]; omega)]
  rw [if_neg (by rw [hsig2]; simp)]
  rw [if_neg (by rw [hrecL, hLlen]; omega)]
  rw [hextra, hseed]
  simp only [hchk]
  rw [hrecL]
  rw [drop_take_append cd Z (recLen cd) hL]
  rw [hmk2]

theorem parse_all_parsed (r : List Nat) (rs : Nat) :
    ∀ (fs : List File) (cd rest : List Nat),
      parseEntries r rs cd = .ok (fs, rest) → ∀ f ∈ fs, ParsedEntry f := by
  intro fs
  induction fs with
  | nil =>
    intro cd rest _ f hf
    simp at hf
  | cons g fs ih =>
    intro cd rest h f hf
    obtain ⟨st, h4, hsig, hL, hst, hg, hrec⟩ := parse_cons_inv r rs cd g fs rest h
    rcases List.mem_cons.mp hf with hfg | hftail
    · exact ⟨r, rs, cd, st, hsig, hL, hst, by rw [hfg, hg]⟩
    · exact ih (cd.drop (recLen cd)) rest hrec f hftail

theorem parse_reparse (r2 : List Nat) (rs2 : Nat) :
    ∀ (fs : List File), (∀ f ∈ fs, ParsedEntry f) →
      ∀ R : List Nat, 4 ≤ R.length → ¬ rdLE 4 R = directoryHeaderSignature →
      parseEntries r2 rs2 ((fs.map GetDirectoryHeader).flatten ++ R) =
        .ok (fs.map (stamp r2 rs2), R) := by
  intro fs
  induction fs with
  | nil =>
    intro _ R h4 hsig
    simp only [List.map_nil, List.flatten_nil, List.nil_append]
    rw [parseEntries_eqn]
    rw [if_neg (by omega), if_pos hsig]
  | cons f fs ih =>
    intro hall R h4 hsig
    simp only [List.map_cons, List.flatten_cons, List.append_assoc]
    rw [parse_step_blob r2 rs2 f (hall f (List.mem_cons_self f fs)) _]
    rw [ih (fun g hg => hall g (List.mem_cons_of_mem f hg)) R h4 hsig]

theorem map_obs_stamp (l : List File) (r2 : List Nat) (rs2 : Nat) :
    (l.map (stamp r2 rs2)).map obs = l.map obs := by
  rw [List.map_map]
  rfl

theorem blob_len_ge (f : File) (hf : ParsedEntry f) :
    46 ≤ (GetDirectoryHeader f).length := by
  obtain ⟨r, rs, cd, st, hsig, hL, hchk, hmk⟩ := hf
  have hblob : GetDirectoryHeader f = cd.take (recLen cd) := by
    rw [hmk]
    rfl
  have h46 : 46 ≤ recLen cd := by
    have := recLen_def cd
    simp only [directoryHeaderLen] at this
    omega
  rw [hblob, List.length_take]
  omega

theorem rwd_entries_small (r2 : List Nat) (rs2 : Nat) (fs : List File)
    (hall : ∀ f ∈ fs, ParsedEntry f) (e : ZipEndRecord)
    (hesig : e.Signature = directoryEndSignature) :
    ReadWithDirectory r2 rs2
        ((fs.map GetDirectoryHeader).flatten ++ serEndRecord e) =
      .ok ⟨fs.map (stamp r2 rs2), rs2,
        rs2 - ((fs.map GetDirectoryHeader).flatten ++ serEndRecord e).length,
        r2, zero64, zeroLoc, parseEndRecord (serEndRecord e)⟩ := by
  have hR4 : 4 ≤ (serEndRecord e).length := by simp
  have hRsig : rdLE 4 (serEndRecord e) = directoryEndSignature := by
    have h := rdLE4_serEnd e []
    rw [List.append_nil] at h
    rw [h, hesig]
    norm_num [directoryEndSignature]
  have hRnotHdr : ¬ rdLE 4 (serEndRecord e) = directoryHeaderSignature := by
    rw [hRsig]
    norm_num [directoryEndSignature, directoryHeaderSignature]
  unfold ReadWithDirectory
  simp only [parse_reparse r2 rs2 fs hall (serEndRecord e) hR4 hRnotHdr]
  rw [dif_neg (by simp)]
  rw [if_neg (by
    rw [hRsig]
    norm_num [directoryEndSignature, directory64EndSignature])]
  rw [if_pos hRsig]
  rw [if_pos (by simp)]

theorem rwd_entries_z64 (r2 : List Nat) (rs2 : Nat) (fs : List File)
    (hall : ∀ f ∈ fs, ParsedEntry f) (e64 : Zip64End) (l : Zip64Loc)
    (er : ZipEndRecord)
    (h64sig : e64.Signature = directory64EndSignature) :
    ReadWithDirectory r2 rs2 ((fs.map GetDirectoryHeader).flatten ++
        (ser64End e64 ++ (serLoc64 l ++ serEndRecord er))) =
      .ok ⟨fs.map (stamp r2 rs2), rs2,
        rs2 - ((fs.map GetDirectoryHeader).flatten ++
          (ser64End e64 ++ (serLoc64 l ++ serEndRecord er))).length,
        r2, parse64End (ser64End e64 ++ (serLoc64 l ++ serEndRecord er)),
        parseLoc64 (serLoc64 l ++ serEndRecord er),
        parseEndRecord (serEndRecord er)⟩ := by
  have hWlen : (ser64End e64 ++ (serLoc64 l ++ serEndRecord er)).length = 98 := by
    simp
  have hR4 : 4 ≤ (ser64End e64 ++ (serLoc64 l ++ serEndRecord er)).length := by
    omega
  have hRsig : rdLE 4 (ser64End e64 ++ (serLoc64 l ++ serEndRecord er)) =
      directory64EndSignature := by
    rw [rdLE4_ser64, h64sig]
    norm_num [directory64EndSignature]
  have hRnotHdr : ¬ rdLE 4 (ser64End e64 ++ (serLoc64 l ++ serEndRecord er)) =
      directoryHeaderSignature := by
    rw [hRsig]
    norm_num [directory64EndSignature, directoryHeaderSignature]
  unfold ReadWithDirectory
  simp only [parse_reparse r2 rs2 fs hall _ hR4 hRnotHdr]
  rw [dif_neg (by omega)]
  rw [if_pos hRsig]
  rw [if_pos (by omega)]
  rw [show (ser64End e64 ++ (serLoc64 l ++ serEndRecord er)).drop 56 =
    serLoc64 l ++ serEndRecord er from List.drop_left' (by simp)]
  rw [if_pos (by simp), if_pos (by simp)]
  rw [show (serLoc64 l ++ serEndRecord er).drop 20 = serEndRecord er from
    List.drop_left' (by simp)]
  rw [if_pos (by simp)]
  simp



theorem find_small (P : List Nat) (e : ZipEndRecord) (hP : 20 ≤ P.length)
    (hsig : e.Signature = directoryEndSignature)
    (hcnt : e.TotalCDCount < uint16Max) (hsz : e.CDSize < uint32Max)
    (hoff : e.CDOffset < uint32Max) :
    FindDirectory (P ++ serEndRecord e) = .ok e.CDOffset := by
  have hlen : (P ++ serEndRecord e).length = P.length + 22 := by
    simp
  have hdrop : (P ++ serEndRecord e).drop ((P ++ serEndRecord e).length -
      (directoryEndLen + directory64LocLen)) =
      P.drop (P.length - 20) ++ serEndRecord e := by
    rw [hlen]
    simp only [directoryEndLen, directory64LocLen]
    rw [List.drop_append_of_le_length (by omega)]
    rw [show P.length + 22 - 42 = P.length - 20 by omega]
  have hd20 : (P.drop (P.length - 20) ++ serEndRecord e).drop
      directory64LocLen = serEndRecord e := by
    simp only [directory64LocLen]
    exact List.drop_left' (by rw [List.length_drop]; omega)
  have hpe : parseEndRecord (serEndRecord e) =
      ⟨e.Signature % 256 ^ 4, e.DiskNumber % 256 ^ 2, e.DiskCD % 256 ^ 2,
       e.DiskCDCount % 256 ^ 2, e.TotalCDCount % 256 ^ 2, e.CDSize % 256 ^ 4,
       e.CDOffset % 256 ^ 4, e.CommentLength % 256 ^ 2⟩ := by
    have h := parseEnd_serEnd e []
    rwa [List.append_nil] at h
  simp only [FindDirectory]
  rw [if_neg (by rw [hlen]; simp only [directoryEndLen, directory64LocLen]; omega)]
  rw [hdrop, hd20, hpe]
  rw [if_neg (by
    simp only [hsig]
    norm_num [directoryEndSignature])]
  rw [if_neg (by
    push_neg
    simp only [uint16Max, uint32Max] at hcnt hsz hoff ⊢
    refine ⟨?_, ?_, ?_⟩
    · rw [Nat.mod_eq_of_lt (by norm_num; omega)]
      omega
    · rw [Nat.mod_eq_of_lt (by norm_num; omega)]
      omega
    · rw [Nat.mod_eq_of_lt (by norm_num; omega)]
      omega)]
  congr 1
  show e.CDOffset % 256 ^ 4 = e.CDOffset
  rw [Nat.mod_eq_of_lt (by
    simp only [uint32Max] at hoff
    norm_num
    omega)]



theorem find_z64 (P : List Nat) (e64 : Zip64End) (l : Zip64Loc)
    (er : ZipEndRecord)
    (hersig : er.Signature = directoryEndSignature)
    (hsent : er.TotalCDCount = uint16Max ∨ er.CDSize = uint32Max ∨
      er.CDOffset = uint32Max)
    (hlsig : l.Signature = directory64LocSignature)
    (hloff : l.Offset = P.length) (hlsmall : l.Offset < 2 ^ 63)
    (h64sig : e64.Signature = directory64EndSignature)
    (hcdo : e64.CDOffset < 2 ^ 63) :
    FindDirectory (P ++ (ser64End e64 ++ (serLoc64 l ++ serEndRecord er))) =
      .ok e64.CDOffset := by
  have hlen : (P ++ (ser64End e64 ++ (serLoc64 l ++ serEndRecord er))).length =
      P.length + 98 := by
    simp
  have hdrop : (P ++ (ser64End e64 ++ (serLoc64 l ++ serEndRecord er))).drop
      ((P ++ (ser64End e64 ++ (serLoc64 l ++ serEndRecord er))).length -
        (directoryEndLen + directory64LocLen)) =
      serLoc64 l ++ serEndRecord er := by
    rw [hlen]
    simp only [directoryEndLen, directory64LocLen]
    rw [show P.length + 98 - 42 = P.length + 56 by omega]
    rw [dropAppend _ _ _ (by omega)]
    rw [show P.length + 56 - P.length = 56 by omega]
    exact List.drop_left' (by simp)
  have htake : (serLoc64 l ++ serEndRecord er).take directory64LocLen =
      serLoc64 l := by
    simp only [directory64LocLen]
    exact List.take_left' (by simp)
  have hd20 : (serLoc64 l ++ serEndRecord er).drop directory64LocLen =
      serEndRecord er := by
    simp only [directory64LocLen]
    exact List.drop_left' (by simp)
  have hpe : parseEndRecord (serEndRecord er) =
      ⟨er.Signature % 256 ^ 4, er.DiskNumber % 256 ^ 2, er.DiskCD % 256 ^ 2,
       er.DiskCDCount % 256 ^ 2, er.TotalCDCount % 256 ^ 2,
       er.CDSize % 256 ^ 4, er.CDOffset % 256 ^ 4,
       er.CommentLength % 256 ^ 2⟩ := by
    have h := parseEnd_serEnd er []
    rwa [List.append_nil] at h
  have hpl : parseLoc64 (serLoc64 l) =
      ⟨l.Signature % 256 ^ 4, l.DiskNumber % 256 ^ 4, l.Offset % 256 ^ 8,
       l.DiskCount % 256 ^ 4⟩ := by
    have h := parseLoc_serLoc l []
    rwa [List.append_nil] at h
  have hslice : sliceN (P ++ (ser64End e64 ++ (serLoc64 l ++ serEndRecord er)))
      (l.Offset % 256 ^ 8) directory64EndLen = ser64End e64 := by
    unfold sliceN
    simp only [directory64EndLen]
    rw [List.drop_left' (by
      rw [Nat.mod_eq_of_lt (show l.Offset < 256 ^ 8 by norm_num; omega), hloff])]
    exact List.take_left' (by simp)
  have hp64 : parse64End (ser64End e64) =
      ⟨e64.Signature % 256 ^ 4, e64.RecordSize % 256 ^ 8,
       e64.CreatorVersion % 256 ^ 2, e64.ReaderVersion % 256 ^ 2,
       e64.DiskNumber % 256 ^ 4, e64.DiskCD % 256 ^ 4,
       e64.DiskCDCount % 256 ^ 8, e64.TotalCDCount % 256 ^ 8,
       e64.CDSize % 256 ^ 8, e64.CDOffset % 256 ^ 8⟩ := by
    have h := parse64_ser64 e64 []
    rwa [List.append_nil] at h
  simp only [FindDirectory]
  rw [if_neg (by
    rw [hlen]
    simp only [directoryEndLen, directory64LocLen]
    omega)]
  rw [hdrop, htake, hd20, hpe, hpl]
  rw [if_neg (by
    simp only [hersig]
    norm_num [directoryEndSignature])]
  rw [if_pos (by
    rcases hsent with h | h | h
    · left
      rw [h]
      norm_num [uint16Max]
    · right; left
      rw [h]
      norm_num [uint32Max]
    · right; right
      rw [h]
      norm_num [uint32Max])]
  rw [if_neg (by
    simp only [hlsig]
    norm_num [directory64LocSignature])]
  rw [if_neg (by
    rw [hlen]
    simp only [directory64EndLen]
    rw [Nat.mod_eq_of_lt (show l.Offset < 256 ^ 8 by norm_num; omega), hloff]
    omega)]
  rw [hslice, hp64]
  rw [if_neg (by
    simp only [h64sig]
    norm_num [directory64EndSignature])]
  congr 1
  show e64.CDOffset % 256 ^ 8 = e64.CDOffset
  rw [Nat.mod_eq_of_lt (by norm_num; omega)]

end Zipslicer

namespace Pkcs9

theorem getOne_none (attrs : List Attr) (oid : Nat)
    (h : ∀ a ∈ attrs, ¬ a.oid = oid) :
    getOne attrs oid = .error .noAttribute := by
  unfold getOne
  rw [List.find?_eq_none.mpr (by
    intro a ha
    simpa using h a ha)]

/-- C10: a validated signature with no timestamp-token attribute (generic
or Authenticode oid) and no counter-signature attribute yields a `none`
counter-signature with no error from VerifyPkcs7, and
VerifyOptionalTimestamp wraps it with a `none` CounterSignature, also
without error: a missing timestamp is never a failure. -/
theorem c10_no_timestamp_ok (ops : P7Ops) (sig : Sig)
    (h : ∀ a ∈ sig.signerInfo.unauthAttrs,
      ¬ a.oid = OidAttributeTimeStampToken ∧
      ¬ a.oid = OidSpcTimeStampToken ∧ ¬ a.oid = OidAttributeCounterSign) :
    VerifyPkcs7 ops sig = .ok none ∧
    VerifyOptionalTimestamp ops sig = .ok ⟨sig, none, []⟩ := by
  have h1 : getOne sig.signerInfo.unauthAttrs OidAttributeTimeStampToken =
      .error .noAttribute := getOne_none _ _ (fun a ha => (h a ha).1)
  have h2 : getOne sig.signerInfo.unauthAttrs OidSpcTimeStampToken =
      .error .noAttribute := getOne_none _ _ (fun a ha => (h a ha).2.1)
  have h3 : getOne sig.signerInfo.unauthAttrs OidAttributeCounterSign =
      .error .noAttribute := getOne_none _ _ (fun a ha => (h a ha).2.2)
  have hv : VerifyPkcs7 ops sig = .ok none := by
    unfold VerifyPkcs7
    simp only [h1, h2, h3]
  refine ⟨hv, ?_⟩
  unfold VerifyOptionalTimestamp
  rw [hv]

theorem c10_witness :
    VerifyPkcs7 ops0 sigW = .ok none ∧
    VerifyOptionalTimestamp ops0 sigW = .ok ⟨sigW, none, []⟩ :=
  c10_no_timestamp_ok ops0 sigW (by decide)

/-- C8: VerifyMicrosoftToken propagates a failure of the token's own
signature verification as an error; when verification and content
extraction succeed and a signing time is present, it returns the
counter-signature successfully with the warning flag set exactly when the
content differs from the primary signature's encrypted digest (a mismatch
is not fatal); a missing signing-time attribute is an error. -/
theorem c8_mismatch_warns (ops : P7Ops) (token : Psd) (ed : List Nat) :
    (∀ e, ops.verifyPsd token = .error e →
      VerifyMicrosoftToken ops token ed = .error e) ∧
    (∀ sig content t, ops.verifyPsd token = .ok sig →
      ops.contentInfoBytes token = .ok content →
      getOne sig.signerInfo.authAttrs OidAttributeSigningTime = .ok t →
      VerifyMicrosoftToken ops token ed = .ok
        (⟨sig, (ops.pkixDigestToHash sig.signerInfo.digestAlgorithm).getD 0, t⟩,
         decide (¬ content = ed))) ∧
    (∀ sig content e, ops.verifyPsd token = .ok sig →
      ops.contentInfoBytes token = .ok content →
      getOne sig.signerInfo.authAttrs OidAttributeSigningTime = .error e →
      VerifyMicrosoftToken ops token ed = .error e) := by
  refine ⟨?_, ?_, ?_⟩
  · intro e he
    unfold VerifyMicrosoftToken
    rw [he]
  · intro sig content t hv hc ht
    unfold VerifyMicrosoftToken
    rw [hv, hc]
    simp only [ht]
  · intro sig content e hv hc ht
    unfold VerifyMicrosoftToken
    rw [hv, hc]
    simp only [ht]

theorem c8_witness :
    VerifyMicrosoftToken ops0 psd0 [1] = .ok (⟨sig0, 2, 5⟩, true) := by
  have h := (c8_mismatch_warns ops0 psd0 [1]).2.1 sig0 [9] 5 rfl rfl rfl
  simpa using h

/-- C7: once the attach phase has produced the assembled structure, a
failure of the re-verification of the inner signature, or of the
timestamp check on the verified signature, makes TimestampAndMarshal
return the self-check error instead of marshalling; only when both
checks pass is the structure marshalled and returned with its raw
bytes. -/
theorem c7_self_check (ops : P7Ops) (psd : Psd)
    (timestamper : Option (Request → Except PErr Psd)) (auth : Bool)
    (psd1 : Psd) (hattach : attachPhase ops psd timestamper auth = .ok psd1) :
    ((∃ e, ops.verifyPsd psd1 = .error e) →
      TimestampAndMarshal ops psd timestamper auth = .error .selfCheckFailed) ∧
    (∀ verified, ops.verifyPsd psd1 = .ok verified →
      ((∃ e, VerifyOptionalTimestamp ops verified = .error e) →
        TimestampAndMarshal ops psd timestamper auth =
          .error .selfCheckFailed) ∧
      (∀ ts blob, VerifyOptionalTimestamp ops verified = .ok ts →
        ops.marshal psd1 = .ok blob →
        TimestampAndMarshal ops psd timestamper auth =
          .ok { ts with raw := blob })) := by
  constructor
  · intro ⟨e, he⟩
    unfold TimestampAndMarshal
    simp only [hattach, he]
  · intro verified hv
    constructor
    · intro ⟨e, he⟩
      unfold TimestampAndMarshal
      simp only [hattach, hv, he]
    · intro ts blob hts hm
      unfold TimestampAndMarshal
      simp only [hattach, hv, hts, hm]

theorem c7_witness :
    TimestampAndMarshal ops0 psd0 (some fun _ => .ok psd0) false =
      .ok ⟨sig0, none, [7]⟩ := by
  have h := (c7_self_check ops0 psd0 (some fun _ => .ok psd0) false
    ⟨[⟨0, [1, 2], [], [⟨OidAttributeTimeStampToken, true, 3⟩]⟩], 0⟩
    rfl).2 sig0 rfl
  have h2 := h.2 ⟨sig0, none, []⟩ [7] rfl rfl
  simpa using h2

end Pkcs9

namespace Zipslicer

theorem rwd_inv (r : List Nat) (size : Nat) (cd : List Nat) (d : Directory)
    (h : ReadWithDirectory r size cd = .ok d) :
    ∃ rest, parseEntries r size cd = .ok (d.File, rest) ∧
      d.Size = size ∧ d.DirLoc = size - cd.length ∧ d.r = r ∧
      4 ≤ rest.length ∧
      ((rdLE 4 rest = directory64EndSignature ∧
        d.end64 = (if 56 ≤ rest.length then parse64End rest else zero64)) ∨
       (¬ rdLE 4 rest = directory64EndSignature ∧ d.end64 = zero64)) := by
  unfold ReadWithDirectory at h
  cases hp : parseEntries r size cd with
  | error e =>
    rw [hp] at h
    exact absurd h (by simp)
  | ok p =>
    obtain ⟨files, rest⟩ := p
    simp only [hp] at h
    by_cases h4 : rest.length < 4
    · rw [dif_pos h4] at h
      exact absurd h (by simp)
    · rw [dif_neg h4] at h
      by_cases hs64 : rdLE 4 rest = directory64EndSignature
      · rw [if_pos hs64] at h
        have hd : (⟨files, size, size - cd.length, r,
            if 56 ≤ rest.length then parse64End rest else zero64,
            if 20 ≤ (if 56 ≤ rest.length then rest.drop 56 else []).length then
              parseLoc64 (if 56 ≤ rest.length then rest.drop 56 else [])
            else zeroLoc,
            if 22 ≤ (if 20 ≤ (if 56 ≤ rest.length then rest.drop 56 else
                []).length then
                (if 56 ≤ rest.length then rest.drop 56 else []).drop 20
              else []).length then
              parseEndRecord (if 20 ≤ (if 56 ≤ rest.length then rest.drop 56
                  else []).length then
                (if 56 ≤ rest.length then rest.drop 56 else []).drop 20
              else [])
            else zeroEnd⟩ : Directory) = d := by
          simpa using h
        subst hd
        exact ⟨rest, rfl, rfl, rfl, rfl, by omega, Or.inl ⟨hs64, rfl⟩⟩
      · rw [if_neg hs64] at h
        by_cases hse : rdLE 4 rest = directoryEndSignature
        · rw [if_pos hse] at h
          have hd : (⟨files, size, size - cd.length, r, zero64, zeroLoc,
              if 22 ≤ rest.length then parseEndRecord rest else zeroEnd⟩ :
              Directory) = d := by
            simpa using h
          subst hd
          exact ⟨rest, rfl, rfl, rfl, rfl, by omega, Or.inr ⟨hs64, rfl⟩⟩
        · rw [if_neg hse] at h
          exact absurd h (by simp)

/-- C6 amended: the size equation `inMemDirSize + DirLoc = Size` is
established by ReadWithDirectory whenever the central-directory bytes fit
the archive and end exactly with the end records that were parsed; but
AddFile does not preserve it: it keeps `Size`, advances `DirLoc` by the
entry's span and appends the entry, growing the in-memory directory size
by the entry's header length. -/
theorem c6_size_invariant :
    (∀ (r : List Nat) (size : Nat) (cd rest : List Nat) (files : List File)
        (d : Directory),
      parseEntries r size cd = .ok (files, rest) →
      ReadWithDirectory r size cd = .ok d →
      cd.length ≤ size →
      rest.length = (if rdLE 4 rest = directory64EndSignature then
          directory64EndLen + directory64LocLen + directoryEndLen
        else directoryEndLen) →
      inMemDirSize d + d.DirLoc = d.Size) ∧
    (∀ (d d2 : Directory) (f f2 : File) (t : Nat),
      GetTotalSize f = .ok t → AddFile d f = .ok (d2, f2) →
      d2.Size = d.Size ∧ d2.DirLoc = d.DirLoc + t ∧
      d2.File = d.File ++ [f2] ∧
      inMemDirSize d2 = inMemDirSize d + (GetDirectoryHeader f2).length) := by
  constructor
  · intro r size cd rest files d hp hr hfit hrlen
    obtain ⟨rest2, hp2, hSize, hDirLoc, _, h4, hcase⟩ := rwd_inv r size cd d hr
    rw [hp] at hp2
    simp only [Except.ok.injEq, Prod.mk.injEq] at hp2
    obtain ⟨hfiles, hrest2⟩ := hp2
    subst hrest2
    have hp2 : parseEntries r size cd = .ok (d.File, rest) := by
      rw [hp, hfiles]
    have hsum := parse_consumed r size d.File cd rest hp2
    rw [hSize, hDirLoc]
    rcases hcase with ⟨hs64, he64⟩ | ⟨hs64, he64⟩
    · rw [if_pos hs64] at hrlen
      simp only [directory64EndLen, directory64LocLen, directoryEndLen]
        at hrlen
      rw [if_pos (by omega)] at he64
      have hsig : ¬ d.end64.Signature = 0 := by
        rw [he64]
        show ¬ rdAt rest 0 4 = 0
        unfold rdAt
        rw [List.drop_zero, hs64]
        norm_num [directory64EndSignature]
      simp only [inMemDirSize, wdSize]
      rw [if_neg hsig]
      simp only [directory64EndLen, directory64LocLen, directoryEndLen]
      omega
    · rw [if_neg hs64] at hrlen
      simp only [directoryEndLen] at hrlen
      have hsig : d.end64.Signature = 0 := by
        rw [he64]
        rfl
      simp only [inMemDirSize, wdSize]
      rw [if_pos hsig]
      simp only [directoryEndLen]
      omega
  · intro d d2 f f2 t ht hadd
    unfold AddFile at hadd
    simp only [ht] at hadd
    simp only [Except.ok.injEq, Prod.mk.injEq] at hadd
    obtain ⟨hd2, hf2⟩ := hadd
    rw [hf2] at hd2
    subst hd2
    refine ⟨rfl, rfl, rfl, ?_⟩
    simp only [inMemDirSize, wdSize]
    dsimp only
    simp only [List.map_append, List.map_cons, List.map_nil, List.sum_append,
      List.sum_cons, List.sum_nil]
    split_ifs
    · omega
    · omega

theorem c6_size_invariant_witness :
    inMemDirSize d6 + d6.DirLoc = d6.Size ∧ d6a.DirLoc = d6.DirLoc + 36 :=
  ⟨c6_size_invariant.1 arch2 188 (arch2.drop 72)
      (serEndRecord ⟨directoryEndSignature, 0, 0, 2, 2, 94, 72, 0⟩) d6.File d6
      rfl rfl (by decide) (by decide),
    (c6_size_invariant.2 d6 d6a f6
      ⟨20, 20, 0, 0, 0, 0, 1, 5, 5, 0, 0, 72, [99], [], [], none, arch2, 188⟩
      36 rfl rfl).2.1⟩

end Zipslicer

namespace Zipslicer

theorem read_inv (archive : List Nat) (d : Directory)
    (h : Read archive = .ok d) :
    ∃ loc, FindDirectory archive = .ok loc ∧ loc < 2 ^ 63 ∧
      loc ≤ archive.length ∧
      ReadWithDirectory archive archive.length (archive.drop loc) = .ok d := by
  unfold Read at h
  cases hf : FindDirectory archive with
  | error e =>
    rw [hf] at h
    exact absurd h (by simp)
  | ok loc =>
    simp only [hf] at h
    by_cases h1 : 2 ^ 63 ≤ loc
    · rw [if_pos h1] at h
      exact absurd h (by simp)
    · rw [if_neg h1] at h
      by_cases h2 : archive.length < loc
      · rw [if_pos h2] at h
        exact absurd h (by simp)
      · rw [if_neg h2] at h
        exact ⟨loc, rfl, by omega, by omega, h⟩

/-- C1 counterexample: the 44-byte archive of two bare end records reads
successfully to an empty directory, but its WriteDirectory
re-serialization is a single 22-byte end record, below FindDirectory's
42-byte probe, so the re-read fails instead of returning an equivalent
directory. -/
theorem c1_counterexample :
    isOkE (Read arch44) = true ∧
    (match Read arch44 with
     | .ok d => isOkE (Read (arch44.take d.DirLoc ++
         ((WriteDirectory d false).1 ++ (WriteDirectory d false).2))) = false
     | .error _ => False) := ⟨rfl, rfl⟩

theorem wd_weod (d : Directory) (force : Bool) :
    (WriteDirectory d force).1 = (d.File.map GetDirectoryHeader).flatten ∧
    (WriteDirectory d force).2 =
      (if uint16Max ≤ d.File.length ∨ uint32Max ≤ wdSize d ∨
          uint32Max ≤ d.DirLoc ∨ force = true ∨ wdMinV0 d = zip45 then
        ser64End ⟨directory64EndSignature, directory64EndLen - 12, zip45,
          zip45, 0, 0, d.File.length, d.File.length, wdSize d, d.DirLoc⟩ ++
        (serLoc64 ⟨directory64LocSignature, 0, d.DirLoc + wdSize d, 1⟩ ++
         serEndRecord ⟨directoryEndSignature, 0, 0, uint16Max, uint16Max,
           uint32Max, uint32Max, 0⟩)
      else
        serEndRecord ⟨directoryEndSignature, 0, 0, d.File.length % 2 ^ 16,
          d.File.length % 2 ^ 16, wdSize d % 2 ^ 32, d.DirLoc % 2 ^ 32, 0⟩) := by
  constructor
  · rfl
  · simp only [WriteDirectory]
    by_cases hc : uint16Max ≤ d.File.length ∨ uint32Max ≤ wdSize d ∨
        uint32Max ≤ d.DirLoc ∨ force = true
    · rw [if_pos hc, if_pos rfl, if_pos (by tauto)]
      rw [List.append_assoc]
    · rw [if_neg hc]
      by_cases hv : wdMinV0 d = zip45
      · rw [if_pos hv, hv, if_pos (by tauto)]
        rw [List.append_assoc]
      · rw [if_neg hv, if_neg (by tauto)]

theorem read_glue (P F W : List Nat) (loc : Nat)
    (hfd : FindDirectory (P ++ (F ++ W)) = .ok loc)
    (hloc : P.length = loc) (hloc63 : loc < 2 ^ 63) :
    Read (P ++ (F ++ W)) =
      ReadWithDirectory (P ++ (F ++ W)) (P ++ (F ++ W)).length (F ++ W) := by
  unfold Read
  simp only [hfd]
  rw [if_neg (by omega)]
  rw [if_neg (by
    push_neg
    rw [List.length_append, hloc]
    omega)]
  rw [List.drop_left' hloc]

/-- C1 amended: for an archive whose directory Read succeeds, whose total
size is below `2 ^ 63` and whose central directory starts at byte 20 or
later (counting the re-emitted headers), re-serializing with
WriteDirectory (any forcing) and re-reading yields a directory whose
entries match the original in name, CRC32, compressed size, uncompressed
size and offset. -/
theorem c1_read_write_roundtrip (archive : List Nat) (d : Directory)
    (force : Bool) (hread : Read archive = .ok d)
    (hlen : archive.length < 2 ^ 63) (h20 : 20 ≤ d.DirLoc + wdSize d) :
    ∃ d2, Read (archive.take d.DirLoc ++
        ((WriteDirectory d force).1 ++ (WriteDirectory d force).2)) =
      .ok d2 ∧ d2.File.map obs = d.File.map obs := by
  obtain ⟨loc, hfd, hloc63, hlocle, hrwd⟩ := read_inv archive d hread
  obtain ⟨rest, hp, hSize, hDirLoc, hrr, h4, hcase⟩ :=
    rwd_inv archive archive.length (archive.drop loc) d hrwd
  have hcd : (archive.drop loc).length = archive.length - loc := by
    simp
  have hDL : d.DirLoc = loc := by
    rw [hDirLoc, hcd]
    omega
  have hall : ∀ f ∈ d.File, ParsedEntry f :=
    parse_all_parsed archive archive.length d.File (archive.drop loc) rest hp
  have hsum := parse_consumed archive archive.length d.File (archive.drop loc)
    rest hp
  have hwd : wdSize d + rest.length = archive.length - loc := by
    rw [hcd] at hsum
    simpa [wdSize] using hsum
  have hP : (archive.take d.DirLoc).length = loc := by
    rw [hDL, List.length_take]
    omega
  have hFlen : ((d.File.map GetDirectoryHeader).flatten).length = wdSize d := by
    rw [List.length_flatten]
    simp only [wdSize, List.map_map]
  obtain ⟨hfst, hsnd⟩ := wd_weod d force
  by_cases hc : uint16Max ≤ d.File.length ∨ uint32Max ≤ wdSize d ∨
      uint32Max ≤ d.DirLoc ∨ force = true ∨ wdMinV0 d = zip45
  · rw [if_pos hc] at hsnd
    rw [hfst, hsnd]
    have hfd2 : FindDirectory (archive.take d.DirLoc ++
        ((d.File.map GetDirectoryHeader).flatten ++
          (ser64End ⟨directory64EndSignature, directory64EndLen - 12, zip45,
            zip45, 0, 0, d.File.length, d.File.length, wdSize d, d.DirLoc⟩ ++
          (serLoc64 ⟨directory64LocSignature, 0, d.DirLoc + wdSize d, 1⟩ ++
           serEndRecord ⟨directoryEndSignature, 0, 0, uint16Max, uint16Max,
             uint32Max, uint32Max, 0⟩)))) = .ok d.DirLoc := by
      rw [show archive.take d.DirLoc ++
          ((d.File.map GetDirectoryHeader).flatten ++
            (ser64End ⟨directory64EndSignature, directory64EndLen - 12, zip45,
              zip45, 0, 0, d.File.length, d.File.length, wdSize d, d.DirLoc⟩ ++
            (serLoc64 ⟨directory64LocSignature, 0, d.DirLoc + wdSize d, 1⟩ ++
             serEndRecord ⟨directoryEndSignature, 0, 0, uint16Max, uint16Max,
               uint32Max, uint32Max, 0⟩))) =
          (archive.take d.DirLoc ++ (d.File.map GetDirectoryHeader).flatten) ++
            (ser64End ⟨directory64EndSignature, directory64EndLen - 12, zip45,
              zip45, 0, 0, d.File.length, d.File.length, wdSize d, d.DirLoc⟩ ++
            (serLoc64 ⟨directory64LocSignature, 0, d.DirLoc + wdSize d, 1⟩ ++
             serEndRecord ⟨directoryEndSignature, 0, 0, uint16Max, uint16Max,
               uint32Max, uint32Max, 0⟩))
        from (List.append_assoc _ _ _).symm]
      exact find_z64 _ _ _ _ rfl (Or.inl rfl) rfl
        (by
          show d.DirLoc + wdSize d = _
          rw [List.length_append, hP, hFlen, hDL])
        (by
          show d.DirLoc + wdSize d < 2 ^ 63
          rw [hDL]
          omega)
        rfl
        (by
          show d.DirLoc < 2 ^ 63
          rw [hDL]
          omega)
    exact ⟨_,
      (read_glue _ _ _ d.DirLoc hfd2 (by rw [hP, hDL]) (by omega)).trans
        (rwd_entries_z64 _ _ d.File hall _ _ _ rfl),
      map_obs_stamp d.File _ _⟩
  · rw [if_neg hc] at hsnd
    push_neg at hc
    obtain ⟨hc1, hc2, hc3, _, _⟩ := hc
    have hm1 : d.File.length % 2 ^ 16 = d.File.length :=
      Nat.mod_eq_of_lt (by simp only [uint16Max] at hc1; omega)
    have hm2 : wdSize d % 2 ^ 32 = wdSize d :=
      Nat.mod_eq_of_lt (by simp only [uint32Max] at hc2; omega)
    have hm3 : d.DirLoc % 2 ^ 32 = d.DirLoc :=
      Nat.mod_eq_of_lt (by simp only [uint32Max] at hc3; omega)
    rw [hm1, hm2, hm3] at hsnd
    rw [hfst, hsnd]
    have hfd2 : FindDirectory (archive.take d.DirLoc ++
        ((d.File.map GetDirectoryHeader).flatten ++
          serEndRecord ⟨directoryEndSignature, 0, 0, d.File.length,
            d.File.length, wdSize d, d.DirLoc, 0⟩)) = .ok d.DirLoc := by
      rw [show archive.take d.DirLoc ++
          ((d.File.map GetDirectoryHeader).flatten ++
            serEndRecord ⟨directoryEndSignature, 0, 0, d.File.length,
              d.File.length, wdSize d, d.DirLoc, 0⟩) =
          (archive.take d.DirLoc ++ (d.File.map GetDirectoryHeader).flatten) ++
            serEndRecord ⟨directoryEndSignature, 0, 0, d.File.length,
              d.File.length, wdSize d, d.DirLoc, 0⟩
        from (List.append_assoc _ _ _).symm]
      exact find_small _ _ (by rw [List.length_append, hP, hFlen, ← hDL]; omega)
        rfl hc1 hc2 hc3
    exact ⟨_,
      (read_glue _ _ _ d.DirLoc hfd2 (by rw [hP, hDL]) (by omega)).trans
        (rwd_entries_small _ _ d.File hall _ rfl),
      map_obs_stamp d.File _ _⟩

theorem c1_read_write_roundtrip_witness :
    (∃ d2, Read (arch2.take d6.DirLoc ++
        ((WriteDirectory d6 false).1 ++ (WriteDirectory d6 false).2)) =
      .ok d2 ∧ d2.File.map obs = d6.File.map obs) :=
  c1_read_write_roundtrip arch2 d6 false rfl (by decide) (by decide)

end Zipslicer

namespace Zipslicer

/-- C4 counterexample: truncating the two-entry directory of `arch2` to
zero entries succeeds and writes a 22-byte end record with no entries,
but re-reading the emitted archive fails (it is below FindDirectory's
42-byte probe) instead of yielding a directory of length 0. -/
theorem c4_counterexample :
    isOkE (Truncate d6 0 true) = true ∧
    (match Truncate d6 0 true with
     | .ok (body, dir) => isOkE (Read (body ++ dir)) = false
     | .error _ => False) := ⟨rfl, rfl⟩

/-- C4 amended: for a truncation index `1 ≤ n` strictly below the entry
count of a directory of parsed entries, when the copied body spans
exactly reach the offset of entry `n` and the end records are coherent
(non-ZIP64 within the 32-bit limits, or ZIP64 with a sentinel-bearing
end record and matching locator), Truncate emits the body and a central
directory of the first `n` entries, and re-reading the concatenation
yields a directory whose `n` entries match the originals in name, CRC32,
sizes and offset. -/
theorem c4_truncate_roundtrip (d : Directory) (n : Nat) (bb : List Nat)
    (h : n < d.File.length) (h1 : 1 ≤ n)
    (hall : ∀ f ∈ d.File, ParsedEntry f)
    (hbody : truncBody d n = .ok bb)
    (hbb : bb.length = (d.File.get ⟨n, h⟩).Offset)
    (hend : d.endRec.Signature = directoryEndSignature)
    (hcase :
      (d.end64.Signature = 0 ∧ (d.File.get ⟨n, h⟩).Offset < uint32Max ∧
        n < uint16Max ∧
        (((d.File.take n).map GetDirectoryHeader).map List.length).sum <
          uint32Max) ∨
      (d.end64.Signature = directory64EndSignature ∧
        d.loc64.Signature = directory64LocSignature ∧
        (d.endRec.TotalCDCount = uint16Max ∨ d.endRec.CDSize = uint32Max ∨
          d.endRec.CDOffset = uint32Max) ∧
        (d.File.get ⟨n, h⟩).Offset +
          (((d.File.take n).map GetDirectoryHeader).map List.length).sum <
          2 ^ 63)) :
    ∃ dir d2, Truncate d n true = .ok (bb, dir) ∧
      Read (bb ++ dir) = .ok d2 ∧
      d2.File.map obs = (d.File.take n).map obs := by
  have halln : ∀ f ∈ d.File.take n, ParsedEntry f :=
    fun f hf => hall f (List.mem_of_mem_take hf)
  have hFlen : (((d.File.take n).map GetDirectoryHeader).flatten).length =
      (((d.File.take n).map GetDirectoryHeader).map List.length).sum := by
    rw [List.length_flatten]
  have hsz46 : 46 ≤
      (((d.File.take n).map GetDirectoryHeader).map List.length).sum := by
    have hne : d.File.take n ≠ [] := by
      have : (d.File.take n).length = n := by
        rw [List.length_take]
        omega
      intro hx
      rw [hx] at this
      simp at this
      omega
    obtain ⟨f, hf⟩ := List.exists_mem_of_ne_nil _ hne
    have h46 := blob_len_ge f (halln f hf)
    have hmem : (GetDirectoryHeader f).length ∈
        ((d.File.take n).map GetDirectoryHeader).map List.length := by
      exact List.mem_map_of_mem _ (List.mem_map_of_mem _ hf)
    have := List.single_le_sum (fun x _ => Nat.zero_le x) _ hmem
    omega
  unfold Truncate
  simp only [if_true, Bind.bind, Except.bind, hbody, pure, Except.pure]
  rw [dif_pos h]
  rcases hcase with ⟨hz, hco, hn, hsz⟩ | ⟨hz, hlsig, hsent, h63⟩
  · rw [if_neg (not_not_intro hz)]
    rw [if_neg (by push_neg; exact ⟨hco, hn⟩)]
    have hm1 : n % 2 ^ 16 = n :=
      Nat.mod_eq_of_lt (by simp only [uint16Max] at hn; omega)
    have hm2 : (((d.File.take n).map GetDirectoryHeader).map
        List.length).sum % 2 ^ 32 =
        (((d.File.take n).map GetDirectoryHeader).map List.length).sum :=
      Nat.mod_eq_of_lt (by simp only [uint32Max] at hsz; omega)
    have hm3 : (d.File.get ⟨n, h⟩).Offset % 2 ^ 32 =
        (d.File.get ⟨n, h⟩).Offset :=
      Nat.mod_eq_of_lt (by simp only [uint32Max] at hco; omega)
    rw [hm1, hm2, hm3]
    have hfd2 : FindDirectory (bb ++
        ((((d.File.take n).map GetDirectoryHeader).flatten ++
          serEndRecord { d.endRec with
            DiskCDCount := n, TotalCDCount := n,
            CDSize :=
              (((d.File.take n).map GetDirectoryHeader).map List.length).sum,
            CDOffset := (d.File.get ⟨n, h⟩).Offset }))) =
        .ok (d.File.get ⟨n, h⟩).Offset := by
      rw [show bb ++
          ((((d.File.take n).map GetDirectoryHeader).flatten ++
            serEndRecord { d.endRec with
              DiskCDCount := n, TotalCDCount := n,
              CDSize := (((d.File.take n).map
                GetDirectoryHeader).map List.length).sum,
              CDOffset := (d.File.get ⟨n, h⟩).Offset })) =
          (bb ++ ((d.File.take n).map GetDirectoryHeader).flatten) ++
            serEndRecord { d.endRec with
              DiskCDCount := n, TotalCDCount := n,
              CDSize := (((d.File.take n).map
                GetDirectoryHeader).map List.length).sum,
              CDOffset := (d.File.get ⟨n, h⟩).Offset }
        from (List.append_assoc _ _ _).symm]
      exact find_small _ _
        (by rw [List.length_append, hFlen]; omega) hend hn hsz hco
    exact ⟨_, _, rfl,
      (read_glue bb _ _ _ hfd2 hbb
        (by simp only [uint32Max] at hco; omega)).trans
        (rwd_entries_small _ _ (d.File.take n) halln _ hend),
      map_obs_stamp (d.File.take n) _ _⟩
  · rw [if_pos (by rw [hz]; norm_num [directory64EndSignature])]
    simp only [List.append_assoc]
    have hfd2 : FindDirectory (bb ++
        ((((d.File.take n).map GetDirectoryHeader).flatten ++
          (ser64End { d.end64 with
            DiskCDCount := n, TotalCDCount := n,
            CDSize :=
              (((d.File.take n).map GetDirectoryHeader).map List.length).sum,
            CDOffset := (d.File.get ⟨n, h⟩).Offset } ++
          (serLoc64 { d.loc64 with
            Offset := (d.File.get ⟨n, h⟩).Offset +
              (((d.File.take n).map
                GetDirectoryHeader).map List.length).sum } ++
           serEndRecord d.endRec))))) = .ok (d.File.get ⟨n, h⟩).Offset := by
      rw [show bb ++
          ((((d.File.take n).map GetDirectoryHeader).flatten ++
            (ser64End { d.end64 with
              DiskCDCount := n, TotalCDCount := n,
              CDSize := (((d.File.take n).map
                GetDirectoryHeader).map List.length).sum,
              CDOffset := (d.File.get ⟨n, h⟩).Offset } ++
            (serLoc64 { d.loc64 with
              Offset := (d.File.get ⟨n, h⟩).Offset +
                (((d.File.take n).map
                  GetDirectoryHeader).map List.length).sum } ++
             serEndRecord d.endRec)))) =
          (bb ++ ((d.File.take n).map GetDirectoryHeader).flatten) ++
            (ser64End { d.end64 with
              DiskCDCount := n, TotalCDCount := n,
              CDSize := (((d.File.take n).map
                GetDirectoryHeader).map List.length).sum,
              CDOffset := (d.File.get ⟨n, h⟩).Offset } ++
            (serLoc64 { d.loc64 with
              Offset := (d.File.get ⟨n, h⟩).Offset +
                (((d.File.take n).map
                  GetDirectoryHeader).map List.length).sum } ++
             serEndRecord d.endRec))
        from (List.append_assoc _ _ _).symm]
      exact find_z64 _ _ _ _ hend hsent hlsig
        (by
          show (d.File.get ⟨n, h⟩).Offset + _ = _
          rw [List.length_append, hFlen, hbb])
        (by
          show (d.File.get ⟨n, h⟩).Offset + _ < 2 ^ 63
          omega)
        hz
        (by
          show (d.File.get ⟨n, h⟩).Offset < 2 ^ 63
          omega)
    exact ⟨_, _, rfl,
      (read_glue bb _ _ _ hfd2 hbb (by omega)).trans
        (rwd_entries_z64 _ _ (d.File.take n) halln _ _ _ hz),
      map_obs_stamp (d.File.take n) _ _⟩

end Zipslicer

namespace Zipslicer

theorem c4_truncate_roundtrip_witness :
    ∃ dir d2, Truncate d6 1 true = .ok (arch2.take 36, dir) ∧
      Read (arch2.take 36 ++ dir) = .ok d2 ∧
      d2.File.map obs = (d6.File.take 1).map obs :=
  c4_truncate_roundtrip d6 1 (arch2.take 36) (by decide) (by decide)
    (parse_all_parsed arch2 188 d6.File (arch2.drop 72)
      (serEndRecord ⟨directoryEndSignature, 0, 0, 2, 2, 94, 72, 0⟩) rfl)
    rfl (by decide) rfl
    (Or.inl ⟨rfl, by decide, by decide, by decide⟩)

theorem c2_zip64_fixed_layout_witness :
    ([2, 3] : List Nat).length < 2 ^ 16 ∧
    zip64Walk (le 2 zip64ExtraID ++ (le 2 ([2, 3] : List Nat).length ++
        [2, 3])) ⟨1, 1, 1, false, false, false⟩ =
      zip64Apply [2, 3] ([2, 3] : List Nat).length
        ⟨1, 1, 1, false, false, false⟩ :=
  ⟨by decide,
   (c2_zip64_fixed_layout [2, 3] ⟨1, 1, 1, false, false, false⟩
     (by decide)).1⟩

theorem c5_truncate_limits_witness :
    Truncate d6 1 false = .error .tooLarge32 ↔
      (d6.end64.Signature = 0 ∧
        (uint32Max ≤ (d6.File.get ⟨1, by decide⟩).Offset ∨ uint16Max ≤ 1)) :=
  c5_truncate_limits d6 1 (by decide)

end Zipslicer
